import Mathlib

/-!
Verification of the functional-uno repository.

Shallow embedding of `src/model/deck.ts`, `src/model/hand.ts` (current
version) and `src/model/uno.ts` (which consumes the older hand module kept
in the repository, here `Uno.OldHand`/`Uno.createInitialHand`).

Conventions of the embedding:
* JavaScript `number` indices are `Nat` where the source only ever uses
  non-negative values, and `Int` where the source explicitly bounds-checks
  for negative values (`accused`, `sayUno`'s player index).
* `undefined`-able values are `Option`.
* Functions that `throw` return `Except Err _`; a JavaScript `TypeError`
  (spreading `undefined` when a player index is out of range of `hands`)
  is `Err.typeError`.
* The reshuffle-until-non-wild loop of `createHand` does not terminate in
  JavaScript when the injected shuffler keeps a wild card on top; the
  embedding takes a fuel argument and returns `Err.nonTerminatingShuffle`
  exactly when the JavaScript code would loop forever.
* In `drawCards`, when the draw pile empties while the discard pile is
  empty, JavaScript destructures `[]`, making the discard pile the
  one-element array `[undefined]`; that value escapes the `Card` type, so
  the embedding keeps the discard pile empty.  Every run reaching that
  state later throws in both the source and the model, so no successfully
  produced `Hand` differs.
-/

/-- Card colors (`deck.ts` `colors`). -/
inductive Color where
  | red
  | yellow
  | green
  | blue
deriving DecidableEq, Repr

/-- Card types (`deck.ts` `types`); `wildDraw` is the source's `"WILD DRAW"`. -/
inductive CardType where
  | numbered
  | skip
  | reverse
  | draw
  | wild
  | wildDraw
deriving DecidableEq, Repr

/-- `deck.ts` `Card`: `color`/`number` are optional fields. -/
structure Card where
  type : CardType
  color : Option Color := none
  number : Option Nat := none
deriving DecidableEq, Repr

/-- `deck.ts` `createNumberedCard` applications for one color:
one `0` card, two each of `1`..`9`. -/
def numberedCardsFor (c : Color) : List Card :=
  ⟨.numbered, some c, some 0⟩ ::
    ((List.range' 1 9).flatMap fun n =>
      [⟨.numbered, some c, some n⟩, ⟨.numbered, some c, some n⟩])

/-- `deck.ts` color list, in source order. -/
def colorsList : List Color := [.red, .yellow, .green, .blue]

/-- `deck.ts` `generateNumberedCards`. -/
def generateNumberedCards : List Card := colorsList.flatMap numberedCardsFor

/-- `deck.ts` `generateSpecialCards`: two SKIP, REVERSE, DRAW per color. -/
def generateSpecialCards : List Card :=
  colorsList.flatMap fun c =>
    [CardType.skip, CardType.reverse, CardType.draw].flatMap fun t =>
      [⟨t, some c, none⟩, ⟨t, some c, none⟩]

/-- `deck.ts` `generateWildCards`: four WILD and four WILD DRAW. -/
def generateWildCards : List Card :=
  [CardType.wild, CardType.wildDraw].flatMap fun t =>
    (List.range 4).map fun _ => ⟨t, none, none⟩

/-- `deck.ts` `createInitialDeck`: the fixed 108-card deck. -/
def createInitialDeck : List Card :=
  generateNumberedCards ++ generateSpecialCards ++ generateWildCards

/-- `deck.ts` `dealCards(count)(deck)`: first `count` cards and remainder,
fewer if the pile is shorter. -/
def dealCards (count : Nat) (deck : List Card) : List Card × List Card :=
  (deck.take count, deck.drop count)

/-- Error kinds thrown by the source (`hand.ts`/`uno.ts` `throw new Error`),
plus `typeError` for the JavaScript `TypeError` raised by spreading
`undefined`, and `nonTerminatingShuffle` for the non-terminating reshuffle
loop of `createHand` (see module comment). -/
inductive Err where
  | gameEnded
  | cardNotFound
  | illegalColorAssignment
  | illegalPlay
  | playerIndexOutOfBounds
  | invalidPlayerCount
  | notEnoughCards
  | nonTerminatingShuffle
  | noActiveHand
  | typeError
deriving DecidableEq, Repr

/-- `hand.ts` `Hand`. -/
structure Hand where
  playerCount : Nat
  dealer : Nat
  playerInTurn : Option Nat
  hands : List (List Card)
  discardPile : List Card
  drawPile : List Card
  direction : Int
  unoCalls : List Bool
  previousPlayer : Option Nat
  isAccusationWindowOpen : Bool
  players : List String
  currentColor : Option Color
  shuffler : List Card → List Card

instance : Inhabited Hand :=
  ⟨{ playerCount := 0, dealer := 0, playerInTurn := none, hands := [],
     discardPile := [], drawPile := [], direction := 1, unoCalls := [],
     previousPlayer := none, isAccusationWindowOpen := false, players := [],
     currentColor := none, shuffler := fun l => l }⟩

/-- The loop body of `hand.ts` `drawCards`: draw `amount` cards one at a
time, recycling the discard pile (minus its top card) through the shuffler
whenever the draw pile empties.  Returns (drawn cards, draw pile, discard
pile). -/
def drawCardsLoop (shuffler : List Card → List Card) :
    Nat → List Card → List Card → List Card → List Card × List Card × List Card
  | 0, drawPile, discardPile, cards => (cards, drawPile, discardPile)
  | amount + 1, drawPile, discardPile, cards =>
    let drawn := drawPile.take 1
    let remaining := drawPile.drop 1
    if remaining.isEmpty then
      match discardPile with
      | [] => drawCardsLoop shuffler amount (shuffler []) [] (cards ++ drawn)
      | topCard :: restCards =>
          drawCardsLoop shuffler amount (shuffler restCards) [topCard] (cards ++ drawn)
    else
      drawCardsLoop shuffler amount remaining discardPile (cards ++ drawn)

/-- `hand.ts` `drawCards`: add `amount` drawn cards to `playerIndex`'s hand
and reset that player's UNO flag.  `Err.typeError` models the JavaScript
`TypeError` when `playerIndex` is outside `hands`. -/
def drawCards (playerIndex amount : Nat) (hand : Hand) : Except Err Hand :=
  match hand.hands.get? playerIndex with
  | none => .error .typeError
  | some playerHand =>
    let res := drawCardsLoop hand.shuffler amount hand.drawPile hand.discardPile []
    .ok { hand with
          hands := hand.hands.set playerIndex (playerHand ++ res.1),
          drawPile := res.2.1,
          discardPile := res.2.2,
          unoCalls := hand.unoCalls.set playerIndex false }

/-- `hand.ts` `isPlayable`.  Note the source compares against
`topCard.color`, not `currentColor`, and JavaScript `===` makes two
`undefined` colors (or numbers) equal, which `Option` equality mirrors. -/
def isPlayable (playerHand : List Card) (card topCard : Card) : Bool :=
  if card.color = topCard.color then true
  else if card.type = .wild then true
  else if card.type = .wildDraw then
    playerHand.all fun c => decide (c.color ≠ topCard.color)
  else if card.type = .numbered ∧ card.number = topCard.number then true
  else decide (card.type = topCard.type ∧ card.type ≠ .numbered)

/-- `hand.ts` `getNextPlayer`, with the fields it reads passed explicitly
(callers have already matched `playerInTurn = some playerInTurn`). -/
def getNextPlayer (playerCount : Nat) (direction : Int) (playerInTurn : Nat)
    (skip : Bool) : Nat :=
  let modifier := if skip then direction * 2 else direction
  let next : Int := (playerInTurn : Int) + modifier
  if (playerCount : Int) ≤ next then (next % (playerCount : Int)).toNat
  else if next < 0 then ((playerCount : Int) + next).toNat
  else next.toNat

/-- `hand.ts` `topOfDiscard`: `discardPile[0]`.  The default card stands for
JavaScript's `undefined` on an empty pile (never reached from a created
hand, whose discard pile is always non-empty). -/
def topOfDiscard (hand : Hand) : Card := hand.discardPile.headD ⟨.numbered, none, none⟩

/-- `hand.ts` `hasEnded`. -/
def hasEnded (hand : Hand) : Bool :=
  hand.playerInTurn.isNone || hand.hands.any fun playerHand => playerHand.isEmpty

/-- `hand.ts` `canPlay`. -/
def canPlay (cardIndex : Nat) (hand : Hand) : Bool :=
  if hasEnded hand then false
  else
    match hand.playerInTurn with
    | none => false
    | some p =>
      let playerHand := hand.hands.getD p []
      match playerHand.get? cardIndex with
      | none => false
      | some card => isPlayable playerHand card (topOfDiscard hand)

/-- `hand.ts` `canPlayAny`: some index of the current player's hand
satisfies `canPlay`. -/
def canPlayAny (hand : Hand) : Bool :=
  match hand.playerInTurn with
  | none => false
  | some p => (List.range (hand.hands.getD p []).length).any fun i => canPlay i hand

/-- `hand.ts` `unoCalls.map((call, i) => ...)` in `play`, as an
index-aware map. -/
def mapWithIndex (f : Nat → α → β) : Nat → List α → List β
  | _, [] => []
  | i, a :: as => f i a :: mapWithIndex f (i + 1) as

/-- `play`'s `playedCard`: a wild card picks up the chosen color. -/
def playedCardOf (card : Card) (color : Option Color) : Card :=
  if card.type = .wild ∨ card.type = .wildDraw then { card with color := color } else card

/-- `play`'s intermediate `newHand`: card removed from the acting player's
hand, pushed on the discard pile, `currentColor` updated
(`color || playedCard.color`). -/
def mkPlayedHand (hand : Hand) (p cardIndex : Nat) (color : Option Color) (card : Card) : Hand :=
  { hand with
    hands := hand.hands.set p ((hand.hands.getD p []).eraseIdx cardIndex),
    discardPile := playedCardOf card color :: hand.discardPile,
    currentColor := match color with | some c => some c | none => (playedCardOf card color).color }

/-- The special-card dispatch of `play`: resulting hand (with any forced
draw applied), next player, and direction. -/
def playResolve (cardIndex : Nat) (color : Option Color) (hand : Hand) (p : Nat)
    (card : Card) : Except Err (Hand × Nat × Int) :=
  if card.type = .reverse then
    if hand.playerCount = 2 then .ok (mkPlayedHand hand p cardIndex color card, p, hand.direction)
    else
      .ok (mkPlayedHand hand p cardIndex color card,
        getNextPlayer hand.playerCount (if hand.direction = 1 then -1 else 1) p false,
        if hand.direction = 1 then -1 else 1)
  else if card.type = .skip then
    .ok (mkPlayedHand hand p cardIndex color card,
      getNextPlayer hand.playerCount hand.direction p true, hand.direction)
  else if card.type = .draw then
    match drawCards (getNextPlayer hand.playerCount hand.direction p false) 2
        (mkPlayedHand hand p cardIndex color card) with
    | .error e => .error e
    | .ok h2 => .ok (h2, getNextPlayer hand.playerCount hand.direction p true, hand.direction)
  else if card.type = .wildDraw then
    match drawCards (getNextPlayer hand.playerCount hand.direction p false) 4
        (mkPlayedHand hand p cardIndex color card) with
    | .error e => .error e
    | .ok h2 => .ok (h2, getNextPlayer hand.playerCount hand.direction p true, hand.direction)
  else
    .ok (mkPlayedHand hand p cardIndex color card,
      getNextPlayer hand.playerCount hand.direction p false, hand.direction)

/-- The tail of `play` after the error checks: special-card dispatch, then
either the terminal (hand emptied) or the regular result. -/
def playCore (cardIndex : Nat) (color : Option Color) (hand : Hand) (p : Nat)
    (card : Card) : Except Err Hand :=
  match playResolve cardIndex color hand p card with
  | .error e => .error e
  | .ok (newHand, nextPlayer, newDirection) =>
    if ((hand.hands.set p ((hand.hands.getD p []).eraseIdx cardIndex)).getD p []).isEmpty then
      .ok { newHand with
            direction := newDirection,
            playerInTurn := none,
            previousPlayer := some p,
            isAccusationWindowOpen := false }
    else
      .ok { newHand with
            direction := newDirection,
            playerInTurn := some nextPlayer,
            previousPlayer := some p,
            isAccusationWindowOpen := true,
            unoCalls := mapWithIndex
              (fun i call => if i = p ∨ hand.previousPlayer = some i then call else false)
              0 hand.unoCalls }

/-- `hand.ts` `play`.  Errors in source order: no active player, card not
found, color supplied for a colored card, `canPlay` rejection, missing
color for a wild card. -/
def play (cardIndex : Nat) (color : Option Color) (hand : Hand) : Except Err Hand :=
  match hand.playerInTurn with
  | none => .error .gameEnded
  | some p =>
    match (hand.hands.getD p []).get? cardIndex with
    | none => .error .cardNotFound
    | some card =>
      if card.color.isSome ∧ color.isSome then .error .illegalColorAssignment
      else if canPlay cardIndex hand = false then .error .illegalPlay
      else if (card.type = .wild ∨ card.type = .wildDraw) ∧ color.isNone then
        .error .illegalColorAssignment
      else playCore cardIndex color hand p card

/-- `hand.ts` `draw`: the acting player draws one card; the turn passes,
window closed, exactly when `canPlayAny` of the post-draw hand is false. -/
def draw (hand : Hand) : Except Err Hand :=
  match hand.playerInTurn with
  | none => .error .gameEnded
  | some p =>
    match drawCards p 1 hand with
    | .error e => .error e
    | .ok newHand =>
      if canPlayAny newHand = false then
        .ok { newHand with
              playerInTurn := some (getNextPlayer newHand.playerCount newHand.direction p false),
              previousPlayer := some p,
              isAccusationWindowOpen := false }
      else .ok newHand

/-- The `{accuser, accused}` parameter object of the UNO accusation API. -/
structure AccuseParams where
  accuser : Int
  accused : Int

/-- `hand.ts` `checkUnoFailure`: bounds-checks only `accused`. -/
def checkUnoFailure (params : AccuseParams) (hand : Hand) : Except Err Bool :=
  if params.accused < 0 ∨ (hand.playerCount : Int) ≤ params.accused then
    .error .playerIndexOutOfBounds
  else if ¬ hand.isAccusationWindowOpen ∨ ¬ (hand.previousPlayer = some params.accused.toNat) then
    .ok false
  else
    .ok (decide ((hand.hands.getD params.accused.toNat []).length = 1 ∧
                 hand.unoCalls.getD params.accused.toNat false = false))

/-- `hand.ts` `catchUnoFailure`: no-op when the check fails, otherwise a
4-card penalty draw with the accusation window closed. -/
def catchUnoFailure (params : AccuseParams) (hand : Hand) : Except Err Hand :=
  if params.accused < 0 ∨ (hand.playerCount : Int) ≤ params.accused then
    .error .playerIndexOutOfBounds
  else
    match checkUnoFailure params hand with
    | .error e => .error e
    | .ok false => .ok hand
    | .ok true =>
      drawCards params.accused.toNat 4 { hand with isAccusationWindowOpen := false }

/-- `hand.ts` `sayUno`. -/
def sayUno (playerIndex : Int) (hand : Hand) : Except Err Hand :=
  if hasEnded hand then .error .gameEnded
  else if playerIndex < 0 ∨ (hand.playerCount : Int) ≤ playerIndex then
    .error .playerIndexOutOfBounds
  else if 2 < (hand.hands.getD playerIndex.toNat []).length then .ok hand
  else .ok { hand with unoCalls := hand.unoCalls.set playerIndex.toNat true }

/-- The initial `Hand` literal of `hand.ts` `createHand` (before dealing). -/
def initialHandState (players : List String) (dealer : Nat)
    (shuffler : List Card → List Card) : Hand :=
  { playerCount := players.length,
    dealer := dealer,
    playerInTurn := some dealer,
    hands := List.replicate players.length [],
    discardPile := [],
    drawPile := shuffler createInitialDeck,
    direction := 1,
    unoCalls := List.replicate players.length false,
    previousPlayer := none,
    isAccusationWindowOpen := false,
    players := players,
    currentColor := none,
    shuffler := shuffler }

/-- The `while (top is wild) reshuffle` loop of `createHand`, with fuel;
`none` models the JavaScript non-termination when the shuffler never
surfaces a non-wild top card. -/
def reshuffleLoop (shuffler : List Card → List Card) : Nat → List Card → Option (List Card)
  | 0, pile =>
    match pile.head? with
    | some c => if c.type = .wild ∨ c.type = .wildDraw then none else some pile
    | none => some pile
  | fuel + 1, pile =>
    match pile.head? with
    | some c =>
      if c.type = .wild ∨ c.type = .wildDraw then reshuffleLoop shuffler fuel (shuffler pile)
      else some pile
    | none => some pile

/-- The initial-dealing `for` loop of `createHand`. -/
def dealLoop (cardsPerPlayer : Nat) : List Nat → Hand → Except Err Hand
  | [], hand => .ok hand
  | i :: rest, hand =>
    match drawCards i cardsPerPlayer hand with
    | .error e => .error e
    | .ok h2 => dealLoop cardsPerPlayer rest h2

/-- The initial `direction` chosen by `createHand` from the revealed top
card. -/
def initialDirection (topCard : Card) : Int :=
  if topCard.type = .reverse then -1 else 1

/-- The initial `playerInTurn` chosen by `createHand` from the revealed top
card (before the DRAW effect's extra advance). -/
def initialPlayer (topCard : Card) (dealer n : Nat) : Nat :=
  if topCard.type = .reverse then (if dealer = 0 then n - 1 else dealer - 1)
  else if topCard.type = .skip then (dealer + 2) % n
  else (dealer + 1) % n

/-- The hand built by `createHand` right after revealing the top card. -/
def afterReveal (hand1 : Hand) (topCard : Card) (remainingDeck : List Card)
    (dealer n : Nat) : Hand :=
  { hand1 with
    drawPile := remainingDeck,
    discardPile := [topCard],
    currentColor := topCard.color,
    direction := initialDirection topCard,
    playerInTurn := some (initialPlayer topCard dealer n) }

/-- `hand.ts` `createHand`. -/
def createHand (fuel : Nat) (players : List String) (dealer : Nat)
    (shuffler : List Card → List Card) (cardsPerPlayer : Nat) : Except Err Hand :=
  if players.length < 2 ∨ 10 < players.length then .error .invalidPlayerCount
  else
    match dealLoop cardsPerPlayer (List.range players.length)
        (initialHandState players dealer shuffler) with
    | .error e => .error e
    | .ok hand1 =>
      match reshuffleLoop shuffler fuel hand1.drawPile with
      | none => .error .nonTerminatingShuffle
      | some currentDrawPile =>
        match currentDrawPile with
        | [] => .error .notEnoughCards
        | topCard :: remainingDeck =>
          let hand2 := afterReveal hand1 topCard remainingDeck dealer players.length
          if topCard.type = .draw then
            match drawCards (initialPlayer topCard dealer players.length) 2 hand2 with
            | .error e => .error e
            | .ok hand3 =>
              .ok { hand3 with
                    playerInTurn :=
                      some (getNextPlayer hand3.playerCount hand3.direction
                        (initialPlayer topCard dealer players.length) false) }
          else .ok hand2

namespace Uno

/-- The `Hand` type of the older hand module that `uno.ts` imports
(`createInitialHand`'s result). -/
structure OldHand where
  playerHands : List (List Card)
  currentPlayer : Nat
  topCard : Card
  direction : Int
  drawPile : List Card
  discardPile : List Card
deriving DecidableEq, Repr

instance : Inhabited OldHand :=
  ⟨{ playerHands := [], currentPlayer := 0, topCard := ⟨.numbered, none, none⟩,
     direction := 1, drawPile := [], discardPile := [] }⟩

/-- The older hand module's `dealInitialHands` loop. -/
def dealInitialHands : Nat → Nat → List Card → List (List Card) × List Card
  | 0, _, deck => ([], deck)
  | n + 1, cardsPerPlayer, deck =>
    let playerCards := deck.take cardsPerPlayer
    let remaining := deck.drop cardsPerPlayer
    let rest := dealInitialHands n cardsPerPlayer remaining
    (playerCards :: rest.1, rest.2)

/-- The older hand module's `createInitialHand`, with the `HandConfig`
fields passed positionally (`playersCount`, `cardsPerPlayer`, `deck`,
`dealer`, `shuffler`). -/
def createInitialHand (playersCount cardsPerPlayer : Nat) (deck : List Card)
    (dealer : Nat) (shuffler : List Card → List Card) : Except Err OldHand :=
  let dealt := dealInitialHands playersCount cardsPerPlayer (shuffler deck)
  match dealt.2 with
  | [] => .error .notEnoughCards
  | topCard :: drawPile =>
    .ok { playerHands := dealt.1,
          currentPlayer := dealer,
          topCard := topCard,
          direction := 1,
          drawPile := drawPile,
          discardPile := [topCard] }

/-- `uno.ts` `Game`. -/
structure Game where
  players : List String
  scores : List Int
  playerCount : Nat
  targetScore : Int
  currentHand : Option OldHand
  winner : Option Nat
  dealer : Nat
deriving DecidableEq, Repr

instance : Inhabited Game :=
  ⟨{ players := [], scores := [], playerCount := 0, targetScore := 0,
     currentHand := none, winner := none, dealer := 0 }⟩

/-- The per-card value computed inline by `uno.ts` `calculateHandScore`. -/
def cardValue (card : Card) : Int :=
  if card.type = .wild ∨ card.type = .wildDraw then 50
  else if ¬ (card.type = .numbered) then 20
  else (card.number.getD 0 : Int)

/-- `uno.ts` `calculateHandScore`: sum of card values over all
non-winning players' hands. -/
def calculateHandScore (hand : OldHand) (winner : Nat) : Int :=
  (mapWithIndex
    (fun index playerHand =>
      if index = winner then (0 : Int)
      else playerHand.foldl (fun cardTotal c => cardTotal + cardValue c) 0)
    0 hand.playerHands).foldl (fun a b => a + b) 0

/-- `uno.ts` `startNewHand`: note the source computes `nextDealer` and
deals the new hand with it, but returns `{...state, currentHand}` without
storing the advanced dealer. -/
def startNewHand (state : Game) (shuffler : List Card → List Card) : Except Err Game :=
  let nextDealer := (state.dealer + 1) % state.players.length
  match createInitialHand state.players.length 7 createInitialDeck nextDealer shuffler with
  | .error e => .error e
  | .ok h => .ok { state with currentHand := some h }

/-- `uno.ts` `endHand`.  The source's defaulted `standardShuffler` is the
explicit `shuffler` argument here. -/
def endHand (state : Game) (handWinner : Nat) (shuffler : List Card → List Card) :
    Except Err Game :=
  match state.currentHand with
  | none => .error .noActiveHand
  | some currentHand =>
    let handScore := calculateHandScore currentHand handWinner
    let newScores := state.scores.set handWinner (state.scores.getD handWinner 0 + handScore)
    if state.targetScore ≤ newScores.getD handWinner 0 then
      .ok { state with scores := newScores, winner := some handWinner, currentHand := none }
    else
      startNewHand { state with scores := newScores } shuffler

end Uno

/-- Total number of cards held anywhere in a `Hand`. -/
def totalCards (hand : Hand) : Nat :=
  (hand.hands.map List.length).sum + hand.drawPile.length + hand.discardPile.length

/-- A shuffler that returns a permutation of its input (the behavior the
spec requires of the injected randomness capability). -/
def PermShuffler (s : List Card → List Card) : Prop := ∀ l, List.Perm (s l) l

/-- Hands reachable from a successful `createHand` (with a permutation
shuffler and a `cardsPerPlayer` satisfying `C`) by successful `play`,
`draw`, `sayUno` and `catchUnoFailure` transitions. -/
inductive ReachableC (C : Nat → Prop) : Hand → Prop where
  | base (fuel : Nat) (players : List String) (dealer : Nat)
      (shuffler : List Card → List Card) (cardsPerPlayer : Nat) (h : Hand) :
      PermShuffler shuffler → C cardsPerPlayer →
      createHand fuel players dealer shuffler cardsPerPlayer = .ok h → ReachableC C h
  | playStep (h h' : Hand) (cardIndex : Nat) (color : Option Color) :
      ReachableC C h → play cardIndex color h = .ok h' → ReachableC C h'
  | drawStep (h h' : Hand) : ReachableC C h → draw h = .ok h' → ReachableC C h'
  | sayUnoStep (h h' : Hand) (playerIndex : Int) :
      ReachableC C h → sayUno playerIndex h = .ok h' → ReachableC C h'
  | catchStep (h h' : Hand) (params : AccuseParams) :
      ReachableC C h → catchUnoFailure params h = .ok h' → ReachableC C h'

/-- Hands reachable from any successful `createHand` with a permutation
shuffler. -/
def Reachable : Hand → Prop := ReachableC fun _ => True

/-- Hands reachable from a successful `createHand` with a permutation
shuffler and at least one card dealt per player. -/
def Reachable1 : Hand → Prop := ReachableC fun cardsPerPlayer => 1 ≤ cardsPerPlayer

/-! ### List helper lemmas -/

theorem lt_of_get?_some {α : Type} {l : List α} {i : Nat} {x : α}
    (h : l.get? i = some x) : i < l.length := by
  induction l generalizing i with
  | nil => simp at h
  | cons a as ih =>
    cases i with
    | zero => simp
    | succ j => simpa using ih (by simpa using h)

theorem getD_eq_get? {α : Type} (l : List α) (i : Nat) (d : α) :
    l.getD i d = (l.get? i).getD d := by
  induction l generalizing i with
  | nil => cases i <;> rfl
  | cons a as ih =>
    cases i with
    | zero => rfl
    | succ j => exact ih j

theorem get?_set_self {α : Type} (l : List α) (i : Nat) (x : α)
    (h : i < l.length) : (l.set i x).get? i = some x := by
  induction l generalizing i with
  | nil => simp at h
  | cons a as ih =>
    cases i with
    | zero => rfl
    | succ j => simpa using ih j (by simpa using h)

theorem get?_set_other {α : Type} (l : List α) (i j : Nat) (x : α)
    (h : i ≠ j) : (l.set i x).get? j = l.get? j := by
  induction l generalizing i j with
  | nil => cases i <;> rfl
  | cons a as ih =>
    cases i with
    | zero => cases j with
      | zero => exact absurd rfl h
      | succ jj => rfl
    | succ ii =>
      cases j with
      | zero => rfl
      | succ jj => simpa using ih ii jj (by omega)

theorem getD_set_self {α : Type} (l : List α) (i : Nat) (x d : α)
    (h : i < l.length) : (l.set i x).getD i d = x := by
  rw [getD_eq_get?, get?_set_self l i x h]; rfl

theorem getD_set_other {α : Type} (l : List α) (i j : Nat) (x d : α)
    (h : i ≠ j) : (l.set i x).getD j d = l.getD j d := by
  rw [getD_eq_get?, get?_set_other l i j x h, getD_eq_get?]

theorem sum_map_length_set {α : Type} (l : List (List α)) (i : Nat) (x : List α)
    (h : i < l.length) :
    ((l.set i x).map List.length).sum + (l.getD i []).length
      = (l.map List.length).sum + x.length := by
  induction l generalizing i with
  | nil => simp at h
  | cons a as ih =>
    cases i with
    | zero => simp [List.sum_cons]; omega
    | succ j =>
      have hrec := ih j (by simpa using h)
      have hgd : (a :: as).getD (j + 1) ([] : List α) = as.getD j [] := rfl
      simp only [List.set, List.map_cons, List.sum_cons, hgd] at *
      omega

theorem eraseIdx_len {α : Type} (l : List α) (i : Nat) (h : i < l.length) :
    (l.eraseIdx i).length + 1 = l.length := by
  induction l generalizing i with
  | nil => simp at h
  | cons a as ih =>
    cases i with
    | zero => simp
    | succ j => simpa using ih j (by simpa using h)

theorem mapWithIndex_length {α β : Type} (f : Nat → α → β) (k : Nat) (l : List α) :
    (mapWithIndex f k l).length = l.length := by
  induction l generalizing k with
  | nil => rfl
  | cons a as ih => simp [mapWithIndex, ih]

theorem get?_mapWithIndex {α β : Type} (f : Nat → α → β) (k : Nat) (l : List α)
    (j : Nat) : (mapWithIndex f k l).get? j = (l.get? j).map (f (k + j)) := by
  induction l generalizing k j with
  | nil => cases j <;> rfl
  | cons a as ih =>
    cases j with
    | zero => simp [mapWithIndex]
    | succ jj =>
      have hrec := ih (k + 1) jj
      have harith : k + 1 + jj = k + (jj + 1) := by omega
      simp only [mapWithIndex, List.get?] at *
      rw [hrec, harith]

/-! ### Lemmas about the drawing loop and the shuffler -/

theorem shuffle_nil_of_perm {s : List Card → List Card} (hs : PermShuffler s) :
    s [] = [] := List.Perm.eq_nil (hs [])

theorem shuffle_length_of_perm {s : List Card → List Card} (hs : PermShuffler s)
    (l : List Card) : (s l).length = l.length := (hs l).length_eq

theorem drawCardsLoop_count {s : List Card → List Card} (hs : PermShuffler s) :
    ∀ (k : Nat) (pile disc acc : List Card),
      (drawCardsLoop s k pile disc acc).1.length
        + (drawCardsLoop s k pile disc acc).2.1.length
        + (drawCardsLoop s k pile disc acc).2.2.length
      = acc.length + pile.length + disc.length := by
  intro k
  induction k with
  | zero => intro pile disc acc; rfl
  | succ n ih =>
    intro pile disc acc
    simp only [drawCardsLoop]
    split
    · next hrem =>
      have hlen : pile.length ≤ 1 := by
        have := List.isEmpty_iff.mp hrem
        have := congrArg List.length this
        simp at this
        omega
      cases disc with
      | nil =>
        rw [shuffle_nil_of_perm hs]
        have hrec := ih [] [] (acc ++ pile.take 1)
        simp only [List.length_append, List.length_take, List.length_nil] at hrec ⊢
        omega
      | cons t r =>
        have hrec := ih (s r) [t] (acc ++ pile.take 1)
        have hr := shuffle_length_of_perm hs r
        simp only [List.length_append, List.length_take, List.length_cons,
          List.length_nil] at hrec ⊢
        omega
    · next hrem =>
      have hlen : 1 ≤ pile.length := by
        cases pile with
        | nil => simp at hrem
        | cons c cs => simp
      have hrec := ih (pile.drop 1) disc (acc ++ pile.take 1)
      rw [hrec]
      simp only [List.length_append, List.length_take, List.length_drop]
      omega

theorem drawCardsLoop_nil_pile {s : List Card → List Card} (hs : PermShuffler s) :
    ∀ (k : Nat) (acc : List Card), drawCardsLoop s k [] [] acc = (acc, [], []) := by
  intro k
  induction k with
  | zero => intro acc; rfl
  | succ n ih =>
    intro acc
    simp only [drawCardsLoop, List.take_nil, List.drop_nil, List.isEmpty_nil, if_true,
      List.append_nil, shuffle_nil_of_perm hs]
    exact ih acc

theorem drawCardsLoop_nil_disc {s : List Card → List Card} (hs : PermShuffler s) :
    ∀ (k : Nat) (pile acc : List Card),
      (drawCardsLoop s k pile [] acc).2.2 = [] ∧
      ((drawCardsLoop s k pile [] acc).2.1 ≠ [] →
        (drawCardsLoop s k pile [] acc).1.length = acc.length + k) := by
  intro k
  induction k with
  | zero => intro pile acc; exact ⟨rfl, fun _ => rfl⟩
  | succ n ih =>
    intro pile acc
    cases pile with
    | nil =>
      rw [drawCardsLoop_nil_pile hs]
      exact ⟨rfl, fun hc => absurd rfl hc⟩
    | cons c rest =>
      simp only [drawCardsLoop, List.take_succ_cons, List.take_zero, List.drop_succ_cons,
        List.drop_zero]
      by_cases hr : rest.isEmpty
      · have hrnil : rest = [] := List.isEmpty_iff.mp hr
        subst hrnil
        simp only [List.isEmpty_nil, if_true, shuffle_nil_of_perm hs]
        rw [drawCardsLoop_nil_pile hs]
        exact ⟨rfl, fun hc => absurd rfl hc⟩
      · simp only [hr, if_false, Bool.false_eq_true]
        have hrec := ih rest (acc ++ [c])
        refine ⟨hrec.1, fun hne => ?_⟩
        have := hrec.2 hne
        simp only [List.length_append, List.length_cons, List.length_nil] at this ⊢
        omega

theorem drawCardsLoop_no_recycle (s : List Card → List Card) :
    ∀ (k : Nat) (pile disc acc : List Card), k < pile.length →
      drawCardsLoop s k pile disc acc = (acc ++ pile.take k, pile.drop k, disc) := by
  intro k
  induction k with
  | zero => intro pile disc acc _; simp [drawCardsLoop]
  | succ n ih =>
    intro pile disc acc h
    cases pile with
    | nil => simp at h
    | cons c rest =>
      have hrest : n < rest.length := by simpa using h
      have hne : rest.isEmpty = false := by
        cases rest with
        | nil => simp at hrest
        | cons d ds => rfl
      simp only [drawCardsLoop, List.take_succ_cons, List.take_zero, List.drop_succ_cons,
        List.drop_zero, hne, if_false, Bool.false_eq_true]
      rw [ih rest disc (acc ++ [c]) hrest]
      simp

theorem drawCardsLoop_cards_exact (s : List Card → List Card) :
    ∀ (k : Nat) (pile disc acc : List Card), k ≤ pile.length →
      (drawCardsLoop s k pile disc acc).1 = acc ++ pile.take k := by
  intro k
  induction k with
  | zero => intro pile disc acc _; simp [drawCardsLoop]
  | succ n ih =>
    intro pile disc acc h
    cases pile with
    | nil => simp at h
    | cons c rest =>
      simp only [drawCardsLoop, List.take_succ_cons, List.take_zero, List.drop_succ_cons,
        List.drop_zero]
      by_cases hr : rest.isEmpty
      · have hrnil : rest = [] := List.isEmpty_iff.mp hr
        subst hrnil
        have hn0 : n = 0 := by simpa using h
        subst hn0
        simp only [List.isEmpty_nil, if_true]
        cases disc with
        | nil => simp [drawCardsLoop]
        | cons t r => simp [drawCardsLoop]
      · simp only [hr, if_false, Bool.false_eq_true]
        have hrest : n ≤ rest.length := by
          simp only [List.length_cons] at h
          omega
        rw [ih rest disc (acc ++ [c]) hrest]
        simp

theorem drawCardsLoop_disc_singleton (s : List Card → List Card) (t : Card) :
    ∀ (k : Nat) (pile acc : List Card),
      (drawCardsLoop s k pile [t] acc).2.2 = [t] := by
  intro k
  induction k with
  | zero => intro pile acc; rfl
  | succ n ih =>
    intro pile acc
    simp only [drawCardsLoop]
    split
    · exact ih _ _
    · exact ih _ _

theorem reshuffleLoop_perm {s : List Card → List Card} (hs : PermShuffler s) :
    ∀ (fuel : Nat) (pile out : List Card),
      reshuffleLoop s fuel pile = some out → out.Perm pile := by
  intro fuel
  induction fuel with
  | zero =>
    intro pile out h
    cases pile with
    | nil => simp only [reshuffleLoop, List.head?_nil, Option.some.injEq] at h; subst h; rfl
    | cons c rest =>
      simp only [reshuffleLoop, List.head?_cons] at h
      split at h
      · exact absurd h (by simp)
      · cases h; rfl
  | succ n ih =>
    intro pile out h
    cases pile with
    | nil => simp only [reshuffleLoop, List.head?_nil, Option.some.injEq] at h; subst h; rfl
    | cons c rest =>
      simp only [reshuffleLoop, List.head?_cons] at h
      split at h
      · exact (ih _ _ h).trans (hs (c :: rest))
      · cases h; rfl

theorem getNextPlayer_lt (n : Nat) (d : Int) (p : Nat) (sk : Bool) (hn : 0 < n) :
    getNextPlayer n d p sk < n := by
  have hn' : (0 : Int) < (n : Int) := by exact_mod_cast hn
  simp only [getNextPlayer]
  set m := if sk then d * 2 else d with hm
  have e1 : 0 ≤ ((p : Int) + m) % (n : Int) := Int.emod_nonneg _ (by omega)
  have e2 : ((p : Int) + m) % (n : Int) < (n : Int) := Int.emod_lt_of_pos _ hn'
  split_ifs with h1 h2 <;> omega

/-! ### Elimination and frame lemmas for `drawCards` -/

theorem drawCards_ok_elim {i k : Nat} {h h' : Hand}
    (hok : drawCards i k h = .ok h') :
    ∃ ph, h.hands.get? i = some ph ∧
      h' = { h with
             hands := h.hands.set i
               (ph ++ (drawCardsLoop h.shuffler k h.drawPile h.discardPile []).1),
             drawPile := (drawCardsLoop h.shuffler k h.drawPile h.discardPile []).2.1,
             discardPile := (drawCardsLoop h.shuffler k h.drawPile h.discardPile []).2.2,
             unoCalls := h.unoCalls.set i false } := by
  unfold drawCards at hok
  cases hg : h.hands.get? i with
  | none => rw [hg] at hok; exact absurd hok (by simp)
  | some ph =>
    rw [hg] at hok
    simp only [Except.ok.injEq] at hok
    exact ⟨ph, rfl, hok.symm⟩

theorem drawCards_frame {i k : Nat} {h h' : Hand} (hok : drawCards i k h = .ok h') :
    h'.playerCount = h.playerCount ∧ h'.playerInTurn = h.playerInTurn ∧
    h'.shuffler = h.shuffler ∧ h'.hands.length = h.hands.length ∧
    h'.direction = h.direction ∧ h'.previousPlayer = h.previousPlayer ∧
    h'.isAccusationWindowOpen = h.isAccusationWindowOpen ∧
    h'.players = h.players ∧ h'.dealer = h.dealer ∧
    h'.currentColor = h.currentColor ∧ h'.unoCalls.length = h.unoCalls.length := by
  obtain ⟨ph, hg, rfl⟩ := drawCards_ok_elim hok
  refine ⟨rfl, rfl, rfl, ?_, rfl, rfl, rfl, rfl, rfl, rfl, ?_⟩ <;> simp

theorem drawCards_hands_mono {i k : Nat} {h h' : Hand}
    (hok : drawCards i k h = .ok h') :
    ∀ j, (h.hands.getD j []).length ≤ (h'.hands.getD j []).length := by
  obtain ⟨ph, hg, rfl⟩ := drawCards_ok_elim hok
  intro j
  by_cases hij : i = j
  · subst hij
    rw [getD_set_self _ _ _ _ (lt_of_get?_some hg)]
    have hgd : h.hands.getD i [] = ph := by rw [getD_eq_get?, hg]; rfl
    rw [hgd]
    simp
  · rw [getD_set_other _ _ _ _ _ hij]

theorem drawCards_count {i k : Nat} {h h' : Hand} (hs : PermShuffler h.shuffler)
    (hok : drawCards i k h = .ok h') : totalCards h' = totalCards h := by
  obtain ⟨ph, hg, rfl⟩ := drawCards_ok_elim hok
  have hi : i < h.hands.length := lt_of_get?_some hg
  have hgd : h.hands.getD i [] = ph := by rw [getD_eq_get?, hg]; rfl
  have hset := sum_map_length_set h.hands i
    (ph ++ (drawCardsLoop h.shuffler k h.drawPile h.discardPile []).1) hi
  have hloop := drawCardsLoop_count hs k h.drawPile h.discardPile []
  rw [hgd] at hset
  simp only [List.length_append, List.length_nil] at hset hloop
  simp only [totalCards]
  omega

theorem get?_none_of_le {α : Type} {l : List α} {p : Nat} (h : l.length ≤ p) :
    l.get? p = none := by
  induction l generalizing p with
  | nil => rfl
  | cons a as ih =>
    cases p with
    | zero => simp at h
    | succ q => simpa using ih (by simpa using h)

theorem lt_of_getD_ne_nil {l : List (List Card)} {p : Nat} (h : l.getD p [] ≠ []) :
    p < l.length := by
  by_contra hc
  push_neg at hc
  rw [getD_eq_get?, get?_none_of_le hc] at h
  exact h rfl

theorem getD_replicate {α : Type} (n i : Nat) (x d : α) (h : i < n) :
    (List.replicate n x).getD i d = x := by
  induction n generalizing i with
  | zero => simp at h
  | succ m ih =>
    cases i with
    | zero => rfl
    | succ j =>
      rw [List.replicate_succ]
      exact ih j (by omega)

/-- All player hands non-empty (index formulation). -/
def allHandsNonempty (h : Hand) : Prop :=
  ∀ j, j < h.hands.length → h.hands.getD j [] ≠ []

theorem any_isEmpty_eq_false {l : List (List Card)} :
    (l.any fun x => x.isEmpty) = false ↔ ∀ j, j < l.length → l.getD j [] ≠ [] := by
  induction l with
  | nil => simp
  | cons a as ih =>
    constructor
    · intro h j hj
      simp only [List.any_cons, Bool.or_eq_false_iff] at h
      cases j with
      | zero =>
        intro heq
        have : a = [] := heq
        subst this
        simp at h
      | succ jj => exact (ih.mp h.2) jj (by simpa using hj)
    · intro h
      simp only [List.any_cons, Bool.or_eq_false_iff]
      constructor
      · have h0 := h 0 (by simp)
        cases a with
        | nil => exact absurd rfl h0
        | cons x xs => rfl
      · exact ih.mpr fun j hj => h (j + 1) (by simpa using hj)

theorem hasEnded_false_of {h : Hand} (hpit : h.playerInTurn ≠ none)
    (hne : allHandsNonempty h) : hasEnded h = false := by
  unfold hasEnded
  rw [Bool.or_eq_false_iff]
  constructor
  · cases hp : h.playerInTurn with
    | none => exact absurd hp hpit
    | some q => rfl
  · exact any_isEmpty_eq_false.mpr hne

theorem of_hasEnded_false {h : Hand} (he : hasEnded h = false) :
    h.playerInTurn ≠ none ∧ allHandsNonempty h := by
  unfold hasEnded at he
  rw [Bool.or_eq_false_iff] at he
  refine ⟨?_, any_isEmpty_eq_false.mp he.2⟩
  cases hp : h.playerInTurn with
  | none => rw [hp] at he; simp at he
  | some q => simp

/-! ### Corollaries of `drawCards_ok_elim` -/

theorem drawCards_disc_nil {i k : Nat} {h h2 : Hand} (hs : PermShuffler h.shuffler)
    (hd : h.discardPile = []) (hok : drawCards i k h = .ok h2) :
    h2.discardPile = [] := by
  obtain ⟨ph, hg, rfl⟩ := drawCards_ok_elim hok
  show (drawCardsLoop h.shuffler k h.drawPile h.discardPile []).2.2 = []
  rw [hd]
  exact (drawCardsLoop_nil_disc hs k h.drawPile []).1

theorem drawCards_pile_nil {i k : Nat} {h h2 : Hand} (hs : PermShuffler h.shuffler)
    (hd : h.discardPile = []) (hp : h.drawPile = []) (hok : drawCards i k h = .ok h2) :
    h2.drawPile = [] := by
  obtain ⟨ph, hg, rfl⟩ := drawCards_ok_elim hok
  show (drawCardsLoop h.shuffler k h.drawPile h.discardPile []).2.1 = []
  rw [hd, hp, drawCardsLoop_nil_pile hs]

theorem drawCards_gained {i k : Nat} {h h2 : Hand} (hs : PermShuffler h.shuffler)
    (hd : h.discardPile = []) (hok : drawCards i k h = .ok h2) (hne : h2.drawPile ≠ []) :
    (h2.hands.getD i []).length = (h.hands.getD i []).length + k := by
  obtain ⟨ph, hg, rfl⟩ := drawCards_ok_elim hok
  have hi := lt_of_get?_some hg
  have hgd : h.hands.getD i [] = ph := by rw [getD_eq_get?, hg]; rfl
  show ((h.hands.set i
    (ph ++ (drawCardsLoop h.shuffler k h.drawPile h.discardPile []).1)).getD i []).length
    = (h.hands.getD i []).length + k
  rw [getD_set_self _ _ _ _ hi, hgd]
  simp only [List.length_append]
  have hne2 : (drawCardsLoop h.shuffler k h.drawPile h.discardPile []).2.1 ≠ [] := hne
  rw [hd] at hne2 ⊢
  have := (drawCardsLoop_nil_disc hs k h.drawPile []).2 hne2
  simp only [List.length_nil] at this
  omega

/-! ### Facts about the initial dealing loop -/

theorem dealLoop_facts (cpp : Nat) :
    ∀ (is : List Nat) (h h' : Hand), PermShuffler h.shuffler → h.discardPile = [] →
      dealLoop cpp is h = .ok h' →
      h'.discardPile = [] ∧ h'.shuffler = h.shuffler ∧ h'.playerCount = h.playerCount ∧
      h'.hands.length = h.hands.length ∧ h'.playerInTurn = h.playerInTurn ∧
      h'.dealer = h.dealer ∧ h'.players = h.players ∧ h'.direction = h.direction ∧
      h'.previousPlayer = h.previousPlayer ∧
      h'.isAccusationWindowOpen = h.isAccusationWindowOpen ∧
      h'.currentColor = h.currentColor ∧ h'.unoCalls.length = h.unoCalls.length ∧
      (h.drawPile = [] → h'.drawPile = []) ∧
      (∀ j, (h.hands.getD j []).length ≤ (h'.hands.getD j []).length) ∧
      (1 ≤ cpp → h'.drawPile ≠ [] → ∀ i ∈ is, 1 ≤ (h'.hands.getD i []).length) ∧
      totalCards h' = totalCards h := by
  intro is
  induction is with
  | nil =>
    intro h h' _ hd hok
    simp only [dealLoop, Except.ok.injEq] at hok
    subst hok
    exact ⟨hd, rfl, rfl, rfl, rfl, rfl, rfl, rfl, rfl, rfl, rfl, rfl, fun x => x,
      fun j => le_refl _, fun _ _ i hi => absurd hi (List.not_mem_nil i), rfl⟩
  | cons i rest ih =>
    intro h h' hs hd hok
    simp only [dealLoop] at hok
    cases hdc : drawCards i cpp h with
    | error e => rw [hdc] at hok; exact absurd hok (by simp)
    | ok h2 =>
      rw [hdc] at hok
      have hfr := drawCards_frame hdc
      have hd2 : h2.discardPile = [] := drawCards_disc_nil hs hd hdc
      have hs2 : PermShuffler h2.shuffler := by rw [hfr.2.2.1]; exact hs
      have hrec := ih h2 h' hs2 hd2 hok
      have hmono2 := drawCards_hands_mono hdc
      refine ⟨hrec.1, ?_, ?_, ?_, ?_, ?_, ?_, ?_, ?_, ?_, ?_, ?_, ?_, ?_, ?_, ?_⟩
      · rw [hrec.2.1, hfr.2.2.1]
      · rw [hrec.2.2.1, hfr.1]
      · rw [hrec.2.2.2.1, hfr.2.2.2.1]
      · rw [hrec.2.2.2.2.1, hfr.2.1]
      · obtain ⟨ph, hg, rfl⟩ := drawCards_ok_elim hdc
        exact hrec.2.2.2.2.2.1
      · obtain ⟨ph, hg, rfl⟩ := drawCards_ok_elim hdc
        exact hrec.2.2.2.2.2.2.1
      · obtain ⟨ph, hg, rfl⟩ := drawCards_ok_elim hdc
        exact hrec.2.2.2.2.2.2.2.1
      · obtain ⟨ph, hg, rfl⟩ := drawCards_ok_elim hdc
        exact hrec.2.2.2.2.2.2.2.2.1
      · obtain ⟨ph, hg, rfl⟩ := drawCards_ok_elim hdc
        exact hrec.2.2.2.2.2.2.2.2.2.1
      · obtain ⟨ph, hg, rfl⟩ := drawCards_ok_elim hdc
        exact hrec.2.2.2.2.2.2.2.2.2.2.1
      · rw [hrec.2.2.2.2.2.2.2.2.2.2.2.1, hfr.2.2.2.2.2.2.2.2.2.2]
      · intro hp
        have hp2 : h2.drawPile = [] := drawCards_pile_nil hs hd hp hdc
        exact hrec.2.2.2.2.2.2.2.2.2.2.2.2.1 hp2
      · intro j
        exact le_trans (hmono2 j) (hrec.2.2.2.2.2.2.2.2.2.2.2.2.2.1 j)
      · intro hcpp hne j hj
        have hne2 : h2.drawPile ≠ [] := by
          intro hp2
          exact hne (hrec.2.2.2.2.2.2.2.2.2.2.2.2.1 hp2)
        rcases List.mem_cons.mp hj with hji | hjr
        · subst hji
          have hg := drawCards_gained hs hd hdc hne2
          have := hrec.2.2.2.2.2.2.2.2.2.2.2.2.2.1 j
          omega
        · exact hrec.2.2.2.2.2.2.2.2.2.2.2.2.2.2.1 hcpp hne j hjr
      · rw [hrec.2.2.2.2.2.2.2.2.2.2.2.2.2.2.2, drawCards_count hs hdc]

/-! ### Inversion lemmas for `play` -/

theorem play_ok_inv {i : Nat} {c : Option Color} {h h' : Hand}
    (hok : play i c h = .ok h') :
    ∃ p card, h.playerInTurn = some p ∧ (h.hands.getD p []).get? i = some card ∧
      canPlay i h = true ∧ playCore i c h p card = .ok h' := by
  unfold play at hok
  split at hok
  · exact absurd hok (by simp)
  next p hp =>
    split at hok
    · exact absurd hok (by simp)
    next card hg =>
      split_ifs at hok with h1 h2 h3
      refine ⟨p, card, hp, hg, ?_, hok⟩
      cases hcp : canPlay i h with
      | false => exact absurd hcp h2
      | true => rfl

theorem playResolve_elim {i : Nat} {c : Option Color} {h : Hand} {p : Nat}
    {card : Card} {nh : Hand} {np : Nat} {nd : Int}
    (hok : playResolve i c h p card = .ok (nh, np, nd)) :
    nh = mkPlayedHand h p i c card ∨
      drawCards (getNextPlayer h.playerCount h.direction p false) 2
        (mkPlayedHand h p i c card) = .ok nh ∨
      drawCards (getNextPlayer h.playerCount h.direction p false) 4
        (mkPlayedHand h p i c card) = .ok nh := by
  unfold playResolve at hok
  split_ifs at hok
  all_goals try exact Or.inl (congrArg Prod.fst (Except.ok.inj hok)).symm
  · cases hdc : drawCards (getNextPlayer h.playerCount h.direction p false) 2
        (mkPlayedHand h p i c card) with
    | error e =>
      rw [hdc] at hok
      exact absurd hok (by simp)
    | ok h2 =>
      rw [hdc] at hok
      simp only [Except.ok.injEq, Prod.mk.injEq] at hok
      exact Or.inr (Or.inl (by rw [hok.1]))
  · cases hdc : drawCards (getNextPlayer h.playerCount h.direction p false) 4
        (mkPlayedHand h p i c card) with
    | error e =>
      rw [hdc] at hok
      exact absurd hok (by simp)
    | ok h2 =>
      rw [hdc] at hok
      simp only [Except.ok.injEq, Prod.mk.injEq] at hok
      exact Or.inr (Or.inr (by rw [hok.1]))

theorem playCore_elim {i : Nat} {c : Option Color} {h : Hand} {p : Nat}
    {card : Card} {h' : Hand} (hok : playCore i c h p card = .ok h') :
    ∃ nh np nd, playResolve i c h p card = .ok (nh, np, nd) ∧
      ((((h.hands.set p ((h.hands.getD p []).eraseIdx i)).getD p []).isEmpty = true ∧
         h' = { nh with
                direction := nd, playerInTurn := none,
                previousPlayer := some p, isAccusationWindowOpen := false }) ∨
       (((h.hands.set p ((h.hands.getD p []).eraseIdx i)).getD p []).isEmpty = false ∧
         h' = { nh with
                direction := nd, playerInTurn := some np,
                previousPlayer := some p, isAccusationWindowOpen := true,
                unoCalls := mapWithIndex
                  (fun j call => if j = p ∨ h.previousPlayer = some j then call else false)
                  0 h.unoCalls })) := by
  unfold playCore at hok
  cases hpr : playResolve i c h p card with
  | error e => rw [hpr] at hok; exact absurd hok (by simp)
  | ok t =>
    obtain ⟨nh, np, nd⟩ := t
    rw [hpr] at hok
    simp only [] at hok
    by_cases hemp : ((h.hands.set p ((h.hands.getD p []).eraseIdx i)).getD p []).isEmpty = true
    · rw [if_pos hemp] at hok
      simp only [Except.ok.injEq] at hok
      exact ⟨nh, np, nd, rfl, Or.inl ⟨hemp, hok.symm⟩⟩
    · rw [if_neg hemp] at hok
      simp only [Except.ok.injEq] at hok
      exact ⟨nh, np, nd, rfl, Or.inr ⟨by simpa using hemp, hok.symm⟩⟩

theorem mkPlayedHand_count {h : Hand} {p i : Nat} {c : Option Color} {card : Card}
    (hg : (h.hands.getD p []).get? i = some card) :
    totalCards (mkPlayedHand h p i c card) = totalCards h := by
  have hi : i < (h.hands.getD p []).length := lt_of_get?_some hg
  have hp : p < h.hands.length := by
    apply lt_of_getD_ne_nil
    intro hnil
    rw [hnil] at hg
    cases i <;> exact Option.noConfusion hg
  have hset := sum_map_length_set h.hands p ((h.hands.getD p []).eraseIdx i) hp
  have hel := eraseIdx_len (h.hands.getD p []) i hi
  simp only [totalCards, mkPlayedHand, List.length_cons]
  omega

theorem playResolve_props {i : Nat} {c : Option Color} {h : Hand} {p : Nat}
    {card : Card} {nh : Hand} {np : Nat} {nd : Int}
    (hok : playResolve i c h p card = .ok (nh, np, nd)) :
    nh.hands.length = h.hands.length ∧ nh.playerCount = h.playerCount ∧
    nh.shuffler = h.shuffler ∧
    (∀ j, ((h.hands.set p ((h.hands.getD p []).eraseIdx i)).getD j []).length
      ≤ (nh.hands.getD j []).length) := by
  rcases playResolve_elim hok with h1 | h2 | h2
  · subst h1
    exact ⟨by simp [mkPlayedHand], rfl, rfl, fun j => le_refl _⟩
  · have hf := drawCards_frame h2
    have hm := drawCards_hands_mono h2
    refine ⟨?_, ?_, ?_, fun j => hm j⟩
    · rw [hf.2.2.2.1]; simp [mkPlayedHand]
    · rw [hf.1]; rfl
    · rw [hf.2.2.1]; rfl
  · have hf := drawCards_frame h2
    have hm := drawCards_hands_mono h2
    refine ⟨?_, ?_, ?_, fun j => hm j⟩
    · rw [hf.2.2.2.1]; simp [mkPlayedHand]
    · rw [hf.1]; rfl
    · rw [hf.2.2.1]; rfl

theorem playResolve_count {i : Nat} {c : Option Color} {h : Hand} {p : Nat}
    {card : Card} {nh : Hand} {np : Nat} {nd : Int}
    (hperm : PermShuffler h.shuffler)
    (hg : (h.hands.getD p []).get? i = some card)
    (hok : playResolve i c h p card = .ok (nh, np, nd)) :
    totalCards nh = totalCards h := by
  rcases playResolve_elim hok with h1 | h2 | h2
  · subst h1; exact mkPlayedHand_count hg
  · have hps : PermShuffler (mkPlayedHand h p i c card).shuffler := hperm
    exact (drawCards_count hps h2).trans (mkPlayedHand_count hg)
  · have hps : PermShuffler (mkPlayedHand h p i c card).shuffler := hperm
    exact (drawCards_count hps h2).trans (mkPlayedHand_count hg)

theorem play_shuffler {i : Nat} {c : Option Color} {h h' : Hand}
    (hok : play i c h = .ok h') : h'.shuffler = h.shuffler := by
  obtain ⟨p, card, hp, hg, hcp, hcore⟩ := play_ok_inv hok
  obtain ⟨nh, np, nd, hpr, hbr⟩ := playCore_elim hcore
  have hsh := (playResolve_props hpr).2.2.1
  rcases hbr with ⟨_, rfl⟩ | ⟨_, rfl⟩ <;> exact hsh

theorem play_count {i : Nat} {c : Option Color} {h h' : Hand}
    (hperm : PermShuffler h.shuffler) (hok : play i c h = .ok h') :
    totalCards h' = totalCards h := by
  obtain ⟨p, card, hp, hg, hcp, hcore⟩ := play_ok_inv hok
  obtain ⟨nh, np, nd, hpr, hbr⟩ := playCore_elim hcore
  have hc := playResolve_count hperm hg hpr
  rcases hbr with ⟨_, rfl⟩ | ⟨_, rfl⟩ <;> exact hc

theorem play_E {i : Nat} {c : Option Color} {h h' : Hand}
    (hok : play i c h = .ok h') (hpre : allHandsNonempty h) :
    allHandsNonempty h' ∨ h'.playerInTurn = none := by
  obtain ⟨p, card, hp, hg, hcp, hcore⟩ := play_ok_inv hok
  obtain ⟨nh, np, nd, hpr, hbr⟩ := playCore_elim hcore
  have hprops := playResolve_props hpr
  rcases hbr with ⟨hemp, rfl⟩ | ⟨hemp, rfl⟩
  · right; rfl
  · left
    intro j hj
    have hj2 : j < h.hands.length := by
      have : j < nh.hands.length := hj
      omega
    have hlen := hprops.2.2.2 j
    intro hnil
    have hlen0 : (nh.hands.getD j []).length = 0 := by rw [hnil]; rfl
    have hup : ((h.hands.set p ((h.hands.getD p []).eraseIdx i)).getD j []).length = 0 := by
      omega
    by_cases hpj : p = j
    · subst hpj
      rw [getD_set_self _ _ _ _ hj2] at hup hemp
      cases herase : (h.hands.getD p []).eraseIdx i with
      | nil => rw [herase] at hemp; simp at hemp
      | cons a as => rw [herase] at hup; simp at hup
    · rw [getD_set_other _ _ _ _ _ hpj] at hup
      have hne := hpre j hj2
      cases hgg : h.hands.getD j [] with
      | nil => exact hne hgg
      | cons a as => rw [hgg] at hup; simp at hup

/-! ### Inversion lemmas for `draw`, `sayUno`, `catchUnoFailure` -/

theorem draw_ok_inv {h h' : Hand} (hok : draw h = .ok h') :
    ∃ p nh, h.playerInTurn = some p ∧ drawCards p 1 h = .ok nh ∧
      ((canPlayAny nh = false ∧
        h' = { nh with
               playerInTurn := some (getNextPlayer nh.playerCount nh.direction p false),
               previousPlayer := some p, isAccusationWindowOpen := false }) ∨
       (canPlayAny nh = true ∧ h' = nh)) := by
  unfold draw at hok
  split at hok
  · exact absurd hok (by simp)
  next p hp =>
    cases hdc : drawCards p 1 h with
    | error e => rw [hdc] at hok; exact absurd hok (by simp)
    | ok nh =>
      rw [hdc] at hok
      simp only [] at hok
      by_cases hcp : canPlayAny nh = false
      · rw [if_pos hcp] at hok
        simp only [Except.ok.injEq] at hok
        exact ⟨p, nh, hp, hdc, Or.inl ⟨hcp, hok.symm⟩⟩
      · rw [if_neg hcp] at hok
        simp only [Except.ok.injEq] at hok
        exact ⟨p, nh, hp, hdc, Or.inr ⟨by simpa using hcp, hok.symm⟩⟩

theorem sayUno_ok_inv {pi : Int} {h h' : Hand} (hok : sayUno pi h = .ok h') :
    hasEnded h = false ∧
      (h' = h ∨ h' = { h with unoCalls := h.unoCalls.set pi.toNat true }) := by
  unfold sayUno at hok
  split_ifs at hok with he hb hlen
  · simp only [Except.ok.injEq] at hok
    exact ⟨by simpa using he, Or.inl hok.symm⟩
  · simp only [Except.ok.injEq] at hok
    exact ⟨by simpa using he, Or.inr hok.symm⟩

theorem catchUnoFailure_ok_inv {ps : AccuseParams} {h h' : Hand}
    (hok : catchUnoFailure ps h = .ok h') :
    h' = h ∨ drawCards ps.accused.toNat 4 { h with isAccusationWindowOpen := false } = .ok h' := by
  unfold catchUnoFailure at hok
  split_ifs at hok with hb
  cases hcu : checkUnoFailure ps h with
  | error e => rw [hcu] at hok; exact absurd hok (by simp)
  | ok b =>
    rw [hcu] at hok
    cases b with
    | false =>
      simp only [] at hok
      simp only [Except.ok.injEq] at hok
      exact Or.inl hok.symm
    | true =>
      simp only [] at hok
      exact Or.inr hok

/-! ### Inversion of `createHand` -/

theorem createHand_ok_elim {fuel : Nat} {players : List String} {dealer : Nat}
    {s : List Card → List Card} {cpp : Nat} {h : Hand}
    (hok : createHand fuel players dealer s cpp = .ok h) :
    2 ≤ players.length ∧ players.length ≤ 10 ∧
    ∃ (hand1 : Hand) (topCard : Card) (remainingDeck : List Card),
      dealLoop cpp (List.range players.length) (initialHandState players dealer s) = .ok hand1 ∧
      reshuffleLoop s fuel hand1.drawPile = some (topCard :: remainingDeck) ∧
      ((topCard.type = .draw ∧
          ∃ hand3, drawCards (initialPlayer topCard dealer players.length) 2
              (afterReveal hand1 topCard remainingDeck dealer players.length) = .ok hand3 ∧
            h = { hand3 with
                  playerInTurn := some (getNextPlayer hand3.playerCount hand3.direction
                    (initialPlayer topCard dealer players.length) false) }) ∨
        (topCard.type ≠ .draw ∧
          h = afterReveal hand1 topCard remainingDeck dealer players.length)) := by
  unfold createHand at hok
  split_ifs at hok with hcount
  push_neg at hcount
  refine ⟨hcount.1, hcount.2, ?_⟩
  cases hdl : dealLoop cpp (List.range players.length) (initialHandState players dealer s) with
  | error e => rw [hdl] at hok; exact absurd hok (by simp)
  | ok hand1 =>
    rw [hdl] at hok
    simp only [] at hok
    cases hrl : reshuffleLoop s fuel hand1.drawPile with
    | none => rw [hrl] at hok; exact absurd hok (by simp)
    | some pile =>
      rw [hrl] at hok
      simp only [] at hok
      cases pile with
      | nil => exact absurd hok (by simp)
      | cons topCard remainingDeck =>
        simp only [] at hok
        by_cases hdrawtype : topCard.type = .draw
        · rw [if_pos hdrawtype] at hok
          cases hdc : drawCards (initialPlayer topCard dealer players.length) 2
              (afterReveal hand1 topCard remainingDeck dealer players.length) with
          | error e => rw [hdc] at hok; exact absurd hok (by simp)
          | ok hand3 =>
            rw [hdc] at hok
            simp only [Except.ok.injEq] at hok
            exact ⟨hand1, topCard, remainingDeck, rfl, hrl,
              Or.inl ⟨hdrawtype, hand3, hdc, hok.symm⟩⟩
        · rw [if_neg hdrawtype] at hok
          simp only [Except.ok.injEq] at hok
          exact ⟨hand1, topCard, remainingDeck, rfl, hrl, Or.inr ⟨hdrawtype, hok.symm⟩⟩

theorem sum_map_length_replicate (n : Nat) :
    ((List.replicate n ([] : List Card)).map List.length).sum = 0 := by
  induction n with
  | zero => rfl
  | succ m ih => simp [List.replicate_succ, ih]

theorem createInitialDeck_length : createInitialDeck.length = 108 := by rfl

/-! ### Invariants over reachable hands -/

theorem reachableC_perm {C : Nat → Prop} {h : Hand} (hr : ReachableC C h) :
    PermShuffler h.shuffler := by
  induction hr with
  | base fuel players dealer s cpp hh hperm hC hok =>
    obtain ⟨h2p, h10, hand1, topCard, remainingDeck, hdl, hrl, hbr⟩ := createHand_ok_elim hok
    have hfacts := dealLoop_facts cpp (List.range players.length)
      (initialHandState players dealer s) hand1 hperm rfl hdl
    have hsh1 : hand1.shuffler = s := hfacts.2.1
    rcases hbr with ⟨ht, hand3, hdc, rfl⟩ | ⟨ht, rfl⟩
    · have hf3 := (drawCards_frame hdc).2.2.1
      show PermShuffler hand3.shuffler
      rw [hf3]
      show PermShuffler hand1.shuffler
      rw [hsh1]; exact hperm
    · show PermShuffler hand1.shuffler
      rw [hsh1]; exact hperm
  | playStep g g' ci col hg hstep ih => rw [play_shuffler hstep]; exact ih
  | drawStep g g' hg hstep ih =>
    obtain ⟨p, nh, hp, hdc, hbr⟩ := draw_ok_inv hstep
    have hf := (drawCards_frame hdc).2.2.1
    rcases hbr with ⟨_, rfl⟩ | ⟨_, rfl⟩
    · show PermShuffler nh.shuffler; rw [hf]; exact ih
    · rw [hf]; exact ih
  | sayUnoStep g g' pi hg hstep ih =>
    obtain ⟨he, hbr⟩ := sayUno_ok_inv hstep
    rcases hbr with rfl | rfl
    · exact ih
    · exact ih
  | catchStep g g' ps hg hstep ih =>
    rcases catchUnoFailure_ok_inv hstep with rfl | hdc
    · exact ih
    · have hf := (drawCards_frame hdc).2.2.1
      rw [hf]; exact ih

theorem reachableC_totalCards {C : Nat → Prop} {h : Hand} (hr : ReachableC C h) :
    totalCards h = 108 := by
  induction hr with
  | base fuel players dealer s cpp hh hperm hC hok =>
    obtain ⟨h2p, h10, hand1, topCard, remainingDeck, hdl, hrl, hbr⟩ := createHand_ok_elim hok
    have hfacts := dealLoop_facts cpp (List.range players.length)
      (initialHandState players dealer s) hand1 hperm rfl hdl
    obtain ⟨hd1, hsh1, _, _, _, _, _, _, _, _, _, _, _, _, _, hcount1⟩ := hfacts
    have hinit : totalCards (initialHandState players dealer s) = 108 := by
      show ((List.replicate players.length ([] : List Card)).map List.length).sum
        + (s createInitialDeck).length + ([] : List Card).length = 108
      rw [shuffle_length_of_perm hperm, createInitialDeck_length,
        sum_map_length_replicate]
      rfl
    have hc1 : totalCards hand1 = 108 := by rw [hcount1, hinit]
    have hperm2 := reshuffleLoop_perm hperm fuel hand1.drawPile _ hrl
    have hlen2 : remainingDeck.length + 1 = hand1.drawPile.length := by
      have := hperm2.length_eq
      simpa using this
    have hexp : totalCards hand1
        = (hand1.hands.map List.length).sum + hand1.drawPile.length
          + hand1.discardPile.length := rfl
    rw [hd1] at hexp
    have hrev : totalCards (afterReveal hand1 topCard remainingDeck dealer players.length)
        = 108 := by
      show (hand1.hands.map List.length).sum + remainingDeck.length + [topCard].length = 108
      simp only [List.length_cons, List.length_nil] at *
      omega
    rcases hbr with ⟨ht, hand3, hdc, rfl⟩ | ⟨ht, rfl⟩
    · have hps : PermShuffler
          (afterReveal hand1 topCard remainingDeck dealer players.length).shuffler := by
        show PermShuffler hand1.shuffler
        rw [hsh1]; exact hperm
      have hc3 := drawCards_count hps hdc
      show totalCards hand3 = 108
      rw [hc3, hrev]
    · exact hrev
  | playStep g g' ci col hg hstep ih =>
    rw [play_count (reachableC_perm hg) hstep]; exact ih
  | drawStep g g' hg hstep ih =>
    obtain ⟨p, nh, hp, hdc, hbr⟩ := draw_ok_inv hstep
    have hc := drawCards_count (reachableC_perm hg) hdc
    rcases hbr with ⟨_, rfl⟩ | ⟨_, rfl⟩
    · show totalCards nh = 108; rw [hc]; exact ih
    · rw [hc]; exact ih
  | sayUnoStep g g' pi hg hstep ih =>
    obtain ⟨he, hbr⟩ := sayUno_ok_inv hstep
    rcases hbr with rfl | rfl
    · exact ih
    · exact ih
  | catchStep g g' ps hg hstep ih =>
    rcases catchUnoFailure_ok_inv hstep with rfl | hdc
    · exact ih
    · have hps : PermShuffler
          ({ g with isAccusationWindowOpen := false } : Hand).shuffler :=
        reachableC_perm (h := g) hg
      rw [drawCards_count hps hdc]; exact ih

theorem nonempty_of_mono {A B : Hand} (hl : B.hands.length = A.hands.length)
    (hm : ∀ j, (A.hands.getD j []).length ≤ (B.hands.getD j []).length)
    (hA : allHandsNonempty A) : allHandsNonempty B := by
  intro j hj
  rw [hl] at hj
  have hgne := hA j hj
  have hmj := hm j
  intro hnil
  rw [hnil] at hmj
  simp only [List.length_nil, Nat.le_zero] at hmj
  cases hgg : A.hands.getD j [] with
  | nil => exact hgne hgg
  | cons a as => rw [hgg] at hmj; simp at hmj

theorem reachableC_nonempty {C : Nat → Prop} (hC : ∀ k, C k → 1 ≤ k) {h : Hand}
    (hr : ReachableC C h) : allHandsNonempty h ∨ h.playerInTurn = none := by
  induction hr with
  | base fuel players dealer s cpp hh hperm hCk hok =>
    left
    obtain ⟨h2p, h10, hand1, topCard, remainingDeck, hdl, hrl, hbr⟩ := createHand_ok_elim hok
    have hfacts := dealLoop_facts cpp (List.range players.length)
      (initialHandState players dealer s) hand1 hperm rfl hdl
    obtain ⟨hd1, hsh1, _, hhl1, _, _, _, _, _, _, _, _, _, _, hgain1, _⟩ := hfacts
    have hperm2 := reshuffleLoop_perm hperm fuel hand1.drawPile _ hrl
    have hpile1 : hand1.drawPile ≠ [] := by
      intro hnil
      rw [hnil] at hperm2
      have := hperm2.length_eq
      simp at this
    have hhl : hand1.hands.length = players.length := by
      rw [hhl1]
      show (List.replicate players.length ([] : List Card)).length = _
      simp
    have hne1 : allHandsNonempty hand1 := by
      intro j hj
      rw [hhl] at hj
      have hg1 := hgain1 (hC cpp hCk) hpile1 j (List.mem_range.mpr hj)
      intro hnil
      rw [hnil] at hg1
      simp at hg1
    rcases hbr with ⟨ht, hand3, hdc, rfl⟩ | ⟨ht, rfl⟩
    · have hm := drawCards_hands_mono hdc
      have hl3 := (drawCards_frame hdc).2.2.2.1
      have hbase : allHandsNonempty hand3 := nonempty_of_mono hl3 hm hne1
      exact hbase
    · exact hne1
  | playStep g g' ci col hg hstep ih =>
    rcases ih with hne | hpit
    · exact play_E hstep hne
    · obtain ⟨p, card, hp, _, _, _⟩ := play_ok_inv hstep
      rw [hpit] at hp
      exact absurd hp (by simp)
  | drawStep g g' hg hstep ih =>
    obtain ⟨p, nh, hp, hdc, hbr⟩ := draw_ok_inv hstep
    rcases ih with hne | hpit
    · left
      have hbase : allHandsNonempty nh :=
        nonempty_of_mono (drawCards_frame hdc).2.2.2.1 (drawCards_hands_mono hdc) hne
      rcases hbr with ⟨_, rfl⟩ | ⟨_, rfl⟩
      · exact hbase
      · exact hbase
    · rw [hpit] at hp
      exact absurd hp (by simp)
  | sayUnoStep g g' pi hg hstep ih =>
    obtain ⟨he, hbr⟩ := sayUno_ok_inv hstep
    have hne := (of_hasEnded_false he).2
    rcases hbr with rfl | rfl
    · exact Or.inl hne
    · exact Or.inl hne
  | catchStep g g' ps hg hstep ih =>
    rcases catchUnoFailure_ok_inv hstep with rfl | hdc
    · exact ih
    · have hpit := (drawCards_frame hdc).2.1
      rcases ih with hne | hp
      · exact Or.inl
          (nonempty_of_mono (drawCards_frame hdc).2.2.2.1 (drawCards_hands_mono hdc) hne)
      · right
        rw [hpit]
        exact hp

theorem get?_getD_of_lt {α : Type} {l : List α} {j : Nat} (hj : j < l.length) (d : α) :
    l.get? j = some (l.getD j d) := by
  induction l generalizing j with
  | nil => simp at hj
  | cons a as ih =>
    cases j with
    | zero => rfl
    | succ q => exact ih (by simpa using hj)

/-- The identity shuffler, used for concrete runs. -/
def idShuffler : List Card → List Card := fun l => l

theorem idShuffler_perm : PermShuffler idShuffler := fun l => List.Perm.refl l

/-- A concrete successful `createHand` run: 2 players, dealer 0, identity
shuffler, 7 cards each. -/
def exHand : Hand := (createHand 1 ["A", "B"] 0 idShuffler 7).toOption.getD default

theorem exHand_spec : createHand 1 ["A", "B"] 0 idShuffler 7 = .ok exHand := rfl

/-- C2: for every Hand reachable from `createHand` by `play`, `draw`,
`sayUno` and `catchUnoFailure` transitions, under a permutation shuffler,
the total number of cards across `hands`, `drawPile` and `discardPile` is
108, hence unchanged by every transition. -/
theorem total_cards_invariant : ∀ h : Hand, Reachable h → totalCards h = 108 :=
  fun _ hr => reachableC_totalCards hr

theorem total_cards_invariant_witness : totalCards exHand = 108 :=
  total_cards_invariant exHand
    (ReachableC.base 1 ["A", "B"] 0 idShuffler 7 exHand idShuffler_perm trivial exHand_spec)

/-- Degenerate `createHand` run with `cardsPerPlayer = 0`: every hand is
empty, so the round is over at creation, yet `playerInTurn` is present. -/
def exHandZero : Hand := (createHand 1 ["A", "B"] 0 idShuffler 0).toOption.getD default

/-- C4 counterexample: with `cardsPerPlayer = 0` (allowed by the claim's
"any cardsPerPlayer argument"), `createHand` succeeds, `hasEnded` is true
(all hands empty) yet `playerInTurn` is `some 1`, so absence of
`playerInTurn` is not equivalent to `hasEnded`. -/
theorem playerInTurn_absent_iff_ended_cex :
    createHand 1 ["A", "B"] 0 idShuffler 0 = .ok exHandZero ∧
    hasEnded exHandZero = true ∧ exHandZero.playerInTurn = some 1 :=
  ⟨rfl, rfl, rfl⟩

/-- C4 (amended): for every Hand reachable from a successful `createHand`
with a permutation shuffler and `cardsPerPlayer ≥ 1`, `playerInTurn` is
absent iff `hasEnded` is true. -/
theorem playerInTurn_absent_iff_ended (h : Hand) (hr : Reachable1 h) :
    h.playerInTurn = none ↔ hasEnded h = true := by
  have hE := reachableC_nonempty (fun _ hk => hk) hr
  constructor
  · intro hp
    unfold hasEnded
    rw [hp]
    rfl
  · intro he
    rcases hE with hne | hp
    · by_contra hpn
      have hany := any_isEmpty_eq_false.mpr hne
      unfold hasEnded at he
      cases hpit : h.playerInTurn with
      | none => exact hpn hpit
      | some q => rw [hpit] at he; simp [hany] at he
    · exact hp

theorem playerInTurn_absent_iff_ended_witness :
    exHand.playerInTurn = none ↔ hasEnded exHand = true :=
  playerInTurn_absent_iff_ended exHand
    (ReachableC.base 1 ["A", "B"] 0 idShuffler 7 exHand idShuffler_perm (by omega) exHand_spec)

/-- A hand with an open accusation window against player 1 who holds one
card and has not said UNO. -/
def exCatchHand : Hand :=
  { playerCount := 2, dealer := 0, playerInTurn := some 0,
    hands := [[⟨.numbered, some .red, some 5⟩, ⟨.numbered, some .yellow, some 1⟩],
              [⟨.numbered, some .green, some 2⟩]],
    discardPile := [⟨.numbered, some .red, some 3⟩],
    drawPile := [⟨.numbered, some .blue, some 7⟩, ⟨.numbered, some .blue, some 8⟩,
                 ⟨.numbered, some .blue, some 9⟩, ⟨.numbered, some .green, some 4⟩,
                 ⟨.numbered, some .green, some 5⟩],
    direction := 1, unoCalls := [false, false], previousPlayer := some 1,
    isAccusationWindowOpen := true, players := ["A", "B"],
    currentColor := some .red, shuffler := fun l => l }

def exCatchHand2 : Hand := (catchUnoFailure ⟨0, 1⟩ exCatchHand).toOption.getD default

/-- C8: when `checkUnoFailure` is false, `catchUnoFailure` returns the Hand
unchanged; and after a successful catch (which closes the window), a second
identical call is a no-op, so calling twice equals calling once. -/
theorem catchUnoFailure_noop_and_idempotent :
    (∀ (params : AccuseParams) (h : Hand),
        checkUnoFailure params h = .ok false → catchUnoFailure params h = .ok h) ∧
    (∀ (params : AccuseParams) (h h' : Hand),
        checkUnoFailure params h = .ok true → catchUnoFailure params h = .ok h' →
        catchUnoFailure params h' = .ok h') := by
  constructor
  · intro params h hchk
    have hb : ¬(params.accused < 0 ∨ (h.playerCount : Int) ≤ params.accused) := by
      intro hb
      unfold checkUnoFailure at hchk
      rw [if_pos hb] at hchk
      exact absurd hchk (by simp)
    unfold catchUnoFailure
    rw [if_neg hb, hchk]
  · intro params h h' hchk hcatch
    have hb : ¬(params.accused < 0 ∨ (h.playerCount : Int) ≤ params.accused) := by
      intro hb
      unfold checkUnoFailure at hchk
      rw [if_pos hb] at hchk
      exact absurd hchk (by simp)
    have hdc : drawCards params.accused.toNat 4
        { h with isAccusationWindowOpen := false } = .ok h' := by
      unfold catchUnoFailure at hcatch
      rw [if_neg hb, hchk] at hcatch
      simpa using hcatch
    have hf := drawCards_frame hdc
    have hpc : h'.playerCount = h.playerCount := by rw [hf.1]
    have hwin : h'.isAccusationWindowOpen = false := by rw [hf.2.2.2.2.2.2.1]
    have hb' : ¬(params.accused < 0 ∨ (h'.playerCount : Int) ≤ params.accused) := by
      rw [hpc]; exact hb
    have hwin' : ¬(h'.isAccusationWindowOpen = true) := by rw [hwin]; simp
    have hchk2 : checkUnoFailure params h' = .ok false := by
      unfold checkUnoFailure
      rw [if_neg hb', if_pos (Or.inl hwin')]
    unfold catchUnoFailure
    rw [if_neg hb', hchk2]

theorem catchUnoFailure_noop_and_idempotent_witness :
    catchUnoFailure ⟨0, 1⟩ exCatchHand2 = .ok exCatchHand2 :=
  catchUnoFailure_noop_and_idempotent.2 ⟨0, 1⟩ exCatchHand exCatchHand2 (by rfl) (by rfl)

/-- C10: `checkUnoFailure` and `catchUnoFailure` never inspect the accuser:
the result is identical for any two accuser values, and with an in-bounds
accused no `PlayerIndexOutOfBounds` error is raised whatever the accuser. -/
theorem accuser_irrelevant :
    ∀ (a1 a2 accused : Int) (h : Hand),
      checkUnoFailure ⟨a1, accused⟩ h = checkUnoFailure ⟨a2, accused⟩ h ∧
      catchUnoFailure ⟨a1, accused⟩ h = catchUnoFailure ⟨a2, accused⟩ h ∧
      (0 ≤ accused → accused < (h.playerCount : Int) →
        checkUnoFailure ⟨a1, accused⟩ h ≠ .error .playerIndexOutOfBounds ∧
        catchUnoFailure ⟨a1, accused⟩ h ≠ .error .playerIndexOutOfBounds) := by
  intro a1 a2 accused h
  refine ⟨rfl, rfl, ?_⟩
  intro h0 hlt
  have hb : ¬(accused < 0 ∨ (h.playerCount : Int) ≤ accused) := by omega
  constructor
  · unfold checkUnoFailure
    rw [if_neg hb]
    split_ifs <;> simp
  · unfold catchUnoFailure
    rw [if_neg hb]
    cases hcu : checkUnoFailure ⟨a1, accused⟩ h with
    | error e =>
      unfold checkUnoFailure at hcu
      rw [if_neg hb] at hcu
      split_ifs at hcu
    | ok b =>
      cases b with
      | false => simp
      | true =>
        simp only []
        cases hdc : drawCards accused.toNat 4
            { h with isAccusationWindowOpen := false } with
        | error e =>
          have het : e = Err.typeError := by
            unfold drawCards at hdc
            cases hgg : ({ h with isAccusationWindowOpen := false } : Hand).hands.get?
                accused.toNat with
            | none =>
              rw [hgg] at hdc
              simp only [Except.error.injEq] at hdc
              exact hdc.symm
            | some ph => rw [hgg] at hdc; simp at hdc
          rw [het]
          simp
        | ok hh => simp

theorem accuser_irrelevant_witness :
    checkUnoFailure ⟨-5, 1⟩ exCatchHand ≠ .error .playerIndexOutOfBounds ∧
    catchUnoFailure ⟨-5, 1⟩ exCatchHand ≠ .error .playerIndexOutOfBounds :=
  (accuser_irrelevant (-5) 99 1 exCatchHand).2.2 (by decide) (by decide)

/-- C3 (amended): a non-terminal `play` by player `p` resets every
`unoCalls` entry to false except the acting player's (`p`, the new
`previousPlayer`) and the pre-play `previousPlayer`'s entries, which keep
their prior values.  (The source keeps the old `previousPlayer`'s entry,
not the new current player's.) -/
theorem play_unoCalls_amended {i : Nat} {c : Option Color} {h h' : Hand} {p : Nat}
    (hp : h.playerInTurn = some p) (hok : play i c h = .ok h')
    (hnt : h'.playerInTurn ≠ none) :
    ∀ j, j < h.unoCalls.length →
      h'.unoCalls.getD j false
        = if j = p ∨ h.previousPlayer = some j then h.unoCalls.getD j false else false := by
  obtain ⟨p2, card, hp2, hg, hcp, hcore⟩ := play_ok_inv hok
  rw [hp] at hp2
  obtain rfl : p = p2 := Option.some.inj hp2
  obtain ⟨nh, np, nd, hpr, hbr⟩ := playCore_elim hcore
  rcases hbr with ⟨hemp, rfl⟩ | ⟨hemp, rfl⟩
  · exact absurd rfl hnt
  · intro j hj
    show (mapWithIndex
        (fun k call => if k = p ∨ h.previousPlayer = some k then call else false)
        0 h.unoCalls).getD j false = _
    rw [getD_eq_get?, get?_mapWithIndex, get?_getD_of_lt hj false]
    simp only [Option.map_some', Option.getD_some, Nat.zero_add]

/-- A 3-player hand used to refute C3 as stated: all UNO flags set,
`previousPlayer = 0`, player 1 about to play a red 5 on a red 3. -/
def cexPlayHand : Hand :=
  { playerCount := 3, dealer := 0, playerInTurn := some 1,
    hands := [[⟨.numbered, some .yellow, some 1⟩],
              [⟨.numbered, some .red, some 5⟩, ⟨.numbered, some .red, some 6⟩],
              [⟨.numbered, some .green, some 2⟩]],
    discardPile := [⟨.numbered, some .red, some 3⟩],
    drawPile := [⟨.numbered, some .blue, some 7⟩],
    direction := 1, unoCalls := [true, true, true], previousPlayer := some 0,
    isAccusationWindowOpen := true, players := ["A", "B", "C"],
    currentColor := some .red, shuffler := fun l => l }

def cexPlayHand2 : Hand := (play 0 none cexPlayHand).toOption.getD default

/-- C3 counterexample: after player 1's non-terminal play the new current
player is 2, but entry 2 is reset to false while entry 0 (the old
`previousPlayer`) keeps its value — the opposite of the claim, which says
the new current player's entry is kept. -/
theorem play_unoCalls_cex :
    play 0 none cexPlayHand = .ok cexPlayHand2 ∧
    cexPlayHand2.playerInTurn = some 2 ∧
    cexPlayHand2.unoCalls = [true, true, false] ∧
    cexPlayHand.unoCalls.getD 2 false = true :=
  ⟨rfl, rfl, rfl, rfl⟩

theorem play_unoCalls_amended_witness :
    cexPlayHand2.unoCalls.getD 2 false
      = if 2 = 1 ∨ cexPlayHand.previousPlayer = some 2
        then cexPlayHand.unoCalls.getD 2 false else false :=
  @play_unoCalls_amended 0 none cexPlayHand cexPlayHand2 1 rfl rfl (by decide) 2 (by decide)

/-- C5 (amended): for a held WILD DRAW card (colorless, as wild cards in a
hand are), in a non-ended hand whose `currentColor` agrees with the colored
top-of-discard — as in every hand the game itself produces — `canPlay` is
true iff the acting player holds no card whose color equals `currentColor`.
(The source compares against the top card's color, so the two must agree.) -/
theorem wildDraw_playable_iff (h : Hand) (p i : Nat) (card : Card) (tc : Color)
    (hp : h.playerInTurn = some p)
    (he : hasEnded h = false)
    (hg : (h.hands.getD p []).get? i = some card)
    (hty : card.type = .wildDraw) (hcol : card.color = none)
    (htop : (topOfDiscard h).color = some tc)
    (hcc : h.currentColor = some tc) :
    canPlay i h = true ↔ ∀ cc ∈ h.hands.getD p [], cc.color ≠ h.currentColor := by
  unfold canPlay
  rw [he]
  simp only [Bool.false_eq_true, if_false]
  rw [hp]
  simp only []
  rw [hg]
  simp only []
  unfold isPlayable
  rw [hcol, htop, hty]
  rw [if_neg (by simp)]
  rw [if_neg (by simp)]
  rw [if_pos rfl]
  rw [List.all_eq_true]
  simp only [decide_eq_true_eq, htop, hcc]

/-- Counterexample hand for C5 as stated: `currentColor` is green but the
top of discard is red; the player holds a green card and a WILD DRAW. -/
def cexWildDrawHand : Hand :=
  { playerCount := 2, dealer := 0, playerInTurn := some 0,
    hands := [[⟨.wildDraw, none, none⟩, ⟨.numbered, some .green, some 5⟩],
              [⟨.numbered, some .yellow, some 1⟩]],
    discardPile := [⟨.numbered, some .red, some 3⟩],
    drawPile := [⟨.numbered, some .blue, some 7⟩],
    direction := 1, unoCalls := [false, false], previousPlayer := none,
    isAccusationWindowOpen := false, players := ["A", "B"],
    currentColor := some .green, shuffler := fun l => l }

/-- C5 counterexample: the player holds a card matching `currentColor`
(green), so the claim says the WILD DRAW is not playable; but the source
checks against the top card's color (red) and `canPlay` returns true. -/
theorem wildDraw_playable_iff_cex :
    canPlay 0 cexWildDrawHand = true ∧
    cexWildDrawHand.currentColor = some Color.green ∧
    ((cexWildDrawHand.hands.getD 0 []).any
      fun cc => decide (cc.color = cexWildDrawHand.currentColor)) = true :=
  ⟨rfl, rfl, rfl⟩

/-- Witness hand for C5's amended theorem: `currentColor` matches the red
top of discard. -/
def exWildDrawHand : Hand :=
  { playerCount := 2, dealer := 0, playerInTurn := some 0,
    hands := [[⟨.wildDraw, none, none⟩, ⟨.numbered, some .green, some 5⟩],
              [⟨.numbered, some .yellow, some 1⟩]],
    discardPile := [⟨.numbered, some .red, some 3⟩],
    drawPile := [⟨.numbered, some .blue, some 7⟩],
    direction := 1, unoCalls := [false, false], previousPlayer := none,
    isAccusationWindowOpen := false, players := ["A", "B"],
    currentColor := some .red, shuffler := fun l => l }

theorem wildDraw_playable_iff_witness :
    canPlay 0 exWildDrawHand = true ↔
      ∀ cc ∈ exWildDrawHand.hands.getD 0 [], cc.color ≠ exWildDrawHand.currentColor :=
  wildDraw_playable_iff exWildDrawHand 0 0 ⟨.wildDraw, none, none⟩ .red
    rfl rfl rfl rfl rfl rfl rfl

/-- C6 (amended): `play`'s error precedence.  A color supplied for a card
that has a color fails with `IllegalColorAssignment` (checked first); a
card rejected by the §4.2 check — when the supplied-color check does not
fire — fails with `IllegalPlay`; a WILD or WILD DRAW that passes the
legality check but lacks a color fails with `IllegalColorAssignment`.  In
particular a WILD DRAW with no color fails with `IllegalPlay`, not
`IllegalColorAssignment`, whenever the holder has a card matching the top
color (legality is checked before the missing-color check). -/
theorem play_error_kinds (h : Hand) (p i : Nat) (card : Card) (colorArg : Option Color)
    (hp : h.playerInTurn = some p)
    (hg : (h.hands.getD p []).get? i = some card) :
    (card.color.isSome = true →
      ∀ c0 : Color, play i (some c0) h = .error .illegalColorAssignment) ∧
    (¬(card.color.isSome = true ∧ colorArg.isSome = true) → canPlay i h = false →
      play i colorArg h = .error .illegalPlay) ∧
    ((card.type = .wild ∨ card.type = .wildDraw) → canPlay i h = true →
      play i none h = .error .illegalColorAssignment) := by
  refine ⟨?_, ?_, ?_⟩
  · intro hcol c0
    unfold play
    rw [hp]
    simp only []
    rw [hg]
    simp only []
    rw [if_pos ⟨hcol, rfl⟩]
  · intro hnc hcp
    unfold play
    rw [hp]
    simp only []
    rw [hg]
    simp only []
    rw [if_neg hnc, if_pos hcp]
  · intro hw hcp
    unfold play
    rw [hp]
    simp only []
    rw [hg]
    simp only []
    have h1 : ¬(card.color.isSome = true ∧ (none : Option Color).isSome = true) := by simp
    rw [if_neg h1]
    have h2 : ¬(canPlay i h = false) := by rw [hcp]; simp
    rw [if_neg h2]
    rw [if_pos ⟨hw, rfl⟩]

/-- Player 0 holds a red 5 and a WILD DRAW; the top of discard is red, so
the WILD DRAW fails the no-matching-color legality rule. -/
def cexWildDrawIllegal : Hand :=
  { playerCount := 2, dealer := 0, playerInTurn := some 0,
    hands := [[⟨.numbered, some .red, some 5⟩, ⟨.wildDraw, none, none⟩],
              [⟨.numbered, some .yellow, some 1⟩]],
    discardPile := [⟨.numbered, some .red, some 3⟩],
    drawPile := [⟨.numbered, some .blue, some 7⟩],
    direction := 1, unoCalls := [false, false], previousPlayer := none,
    isAccusationWindowOpen := false, players := ["A", "B"],
    currentColor := some .red, shuffler := fun l => l }

/-- C6 counterexample: a WILD DRAW played with no color argument, on a
non-ended hand, fails with `IllegalPlay` (legality rejected it first), not
with `IllegalColorAssignment` as the claim states. -/
theorem play_error_kinds_cex :
    hasEnded cexWildDrawIllegal = false ∧
    (cexWildDrawIllegal.hands.getD 0 []).get? 1
      = some (⟨.wildDraw, none, none⟩ : Card) ∧
    play 1 none cexWildDrawIllegal = .error .illegalPlay :=
  ⟨rfl, rfl, rfl⟩

theorem play_error_kinds_witness :
    play 0 (some Color.blue) cexWildDrawIllegal = .error .illegalColorAssignment ∧
    play 1 none cexWildDrawIllegal = .error .illegalPlay ∧
    play 0 none exWildDrawHand = .error .illegalColorAssignment :=
  ⟨(play_error_kinds cexWildDrawIllegal 0 0 ⟨.numbered, some .red, some 5⟩ none
      rfl rfl).1 rfl Color.blue,
   (play_error_kinds cexWildDrawIllegal 0 1 ⟨.wildDraw, none, none⟩ none
      rfl rfl).2.1 (by simp) rfl,
   (play_error_kinds exWildDrawHand 0 0 ⟨.wildDraw, none, none⟩ none
      rfl rfl).2.2 (Or.inr rfl) rfl⟩

theorem draw_eq_of_drawCards {h : Hand} {p : Nat} {nh : Hand}
    (hp : h.playerInTurn = some p) (hdc : drawCards p 1 h = .ok nh) :
    draw h = .ok (if canPlayAny nh = false
      then { nh with
             playerInTurn := some (getNextPlayer nh.playerCount nh.direction p false),
             previousPlayer := some p, isAccusationWindowOpen := false }
      else nh) := by
  unfold draw
  rw [hp]
  simp only []
  rw [hdc]
  simp only []
  by_cases hq : canPlayAny nh = false
  · rw [if_pos hq, if_pos hq]
  · rw [if_neg hq, if_neg hq]

/-- C1 (amended): on a non-ended hand with a valid current player and a
non-empty draw pile, a player-initiated `draw` adds exactly one card to the
acting player's hand and resets their UNO flag; the turn then passes (plain
direction step, window closed) iff no card of the post-draw hand is
playable (`canPlayAny` false) — not iff the just-drawn card is unplayable —
and otherwise stays with the same player. -/
theorem draw_one_card_amended (h : Hand) (p : Nat)
    (hp : h.playerInTurn = some p) (_he : hasEnded h = false)
    (hlt : p < h.hands.length) (hdp : h.drawPile ≠ []) :
    ∃ nh, drawCards p 1 h = .ok nh ∧
      nh.playerInTurn = some p ∧
      (nh.hands.getD p []).length = (h.hands.getD p []).length + 1 ∧
      nh.unoCalls.getD p false = false ∧
      draw h = .ok (if canPlayAny nh = false
        then { nh with
               playerInTurn := some (getNextPlayer nh.playerCount nh.direction p false),
               previousPlayer := some p, isAccusationWindowOpen := false }
        else nh) := by
  have hgp : h.hands.get? p = some (h.hands.getD p []) := get?_getD_of_lt hlt []
  have hone : 1 ≤ h.drawPile.length := by
    cases hq : h.drawPile with
    | nil => exact absurd hq hdp
    | cons a as => simp
  have hcards : (drawCardsLoop h.shuffler 1 h.drawPile h.discardPile []).1
      = h.drawPile.take 1 := by
    rw [drawCardsLoop_cards_exact h.shuffler 1 h.drawPile h.discardPile [] hone]
    rfl
  have hdc : drawCards p 1 h = .ok { h with
      hands := h.hands.set p ((h.hands.getD p [])
        ++ (drawCardsLoop h.shuffler 1 h.drawPile h.discardPile []).1),
      drawPile := (drawCardsLoop h.shuffler 1 h.drawPile h.discardPile []).2.1,
      discardPile := (drawCardsLoop h.shuffler 1 h.drawPile h.discardPile []).2.2,
      unoCalls := h.unoCalls.set p false } := by
    unfold drawCards
    rw [hgp]
  refine ⟨_, hdc, hp, ?_, ?_, ?_⟩
  · show ((h.hands.set p ((h.hands.getD p [])
        ++ (drawCardsLoop h.shuffler 1 h.drawPile h.discardPile []).1)).getD p []).length = _
    rw [getD_set_self _ _ _ _ hlt, hcards]
    simp only [List.length_append, List.length_take]
    omega
  · show (h.unoCalls.set p false).getD p false = false
    by_cases hu : p < h.unoCalls.length
    · rw [getD_set_self _ _ _ _ hu]
    · rw [getD_eq_get?, get?_none_of_le (by simpa using Nat.le_of_not_lt hu)]
      rfl
  · exact draw_eq_of_drawCards hp hdc

/-- Player 0 holds a playable red 5; the only card in the draw pile is an
unplayable blue 7. -/
def cexDrawHand : Hand :=
  { playerCount := 2, dealer := 0, playerInTurn := some 0,
    hands := [[⟨.numbered, some .red, some 5⟩], [⟨.numbered, some .yellow, some 1⟩]],
    discardPile := [⟨.numbered, some .red, some 3⟩],
    drawPile := [⟨.numbered, some .blue, some 7⟩],
    direction := 1, unoCalls := [false, false], previousPlayer := none,
    isAccusationWindowOpen := false, players := ["A", "B"],
    currentColor := some .red, shuffler := fun l => l }

def cexDrawHand2 : Hand := (draw cexDrawHand).toOption.getD default

/-- C1 counterexample: the just-drawn card (index 1, the blue 7) is not
playable, yet the turn stays with player 0 because another held card is
playable (`canPlayAny` is true) — the claim says the turn must pass. -/
theorem draw_turn_pass_cex :
    draw cexDrawHand = .ok cexDrawHand2 ∧
    canPlay 1 cexDrawHand2 = false ∧
    cexDrawHand2.hands.getD 0 []
      = [⟨.numbered, some .red, some 5⟩, ⟨.numbered, some .blue, some 7⟩] ∧
    cexDrawHand2.playerInTurn = some 0 :=
  ⟨rfl, rfl, rfl, rfl⟩

theorem draw_one_card_amended_witness :
    ∃ nh, drawCards 0 1 cexDrawHand = .ok nh ∧
      nh.playerInTurn = some 0 ∧
      (nh.hands.getD 0 []).length = (cexDrawHand.hands.getD 0 []).length + 1 ∧
      nh.unoCalls.getD 0 false = false ∧
      draw cexDrawHand = .ok (if canPlayAny nh = false
        then { nh with
               playerInTurn := some (getNextPlayer nh.playerCount nh.direction 0 false),
               previousPlayer := some 0, isAccusationWindowOpen := false }
        else nh) :=
  draw_one_card_amended cexDrawHand 0 rfl rfl (by decide) (by decide)

/-- A small finished hand for the Game-level run: player 0 just won,
player 1 still holds a red 6 (worth 6 points). -/
def exGameHand : Uno.OldHand :=
  { playerHands := [[], [⟨.numbered, some .red, some 6⟩]],
    currentPlayer := 0, topCard := ⟨.numbered, some .red, some 3⟩, direction := 1,
    drawPile := [⟨.numbered, some .blue, some 7⟩],
    discardPile := [⟨.numbered, some .red, some 3⟩] }

def exGame0 : Uno.Game :=
  { players := ["A", "B"], scores := [0, 0], playerCount := 2, targetScore := 500,
    currentHand := some exGameHand, winner := none, dealer := 0 }

def exGame1 : Uno.Game := (Uno.endHand exGame0 0 idShuffler).toOption.getD default

def exGame2 : Uno.Game := (Uno.endHand exGame1 0 idShuffler).toOption.getD default

/-- C9 (code bug): `startNewHand` computes `nextDealer = (dealer + 1) mod
playerCount` and deals the new hand with it, but never stores it back into
the Game, so the recorded dealer stays fixed.  Ending two hands in a row
(scores below target) deals both new hands with dealer 1 — the second
should be dealt by `(1 + 1) mod 2 = 0` if the rotation advanced. -/
theorem game_dealer_rotation_bug :
    Uno.endHand exGame0 0 idShuffler = .ok exGame1 ∧
    exGame1.dealer = 0 ∧
    exGame1.currentHand.map Uno.OldHand.currentPlayer = some 1 ∧
    exGame1.winner = none ∧
    Uno.endHand exGame1 0 idShuffler = .ok exGame2 ∧
    exGame2.dealer = 0 ∧
    exGame2.currentHand.map Uno.OldHand.currentPlayer = some 1 :=
  ⟨by rfl, by decide, by decide, by decide, by rfl, by decide, by decide⟩

/-! ### Exact dealing facts (no recycling) and initial-effect arithmetic -/

theorem dealLoop_exact (cpp : Nat) :
    ∀ (is : List Nat) (h : Hand), is.Nodup → (∀ i ∈ is, i < h.hands.length) →
      cpp * is.length < h.drawPile.length →
      ∃ h', dealLoop cpp is h = .ok h' ∧
        h'.drawPile = h.drawPile.drop (cpp * is.length) ∧
        h'.discardPile = h.discardPile ∧
        h'.hands.length = h.hands.length ∧
        h'.playerCount = h.playerCount ∧
        (∀ i ∈ is, (h'.hands.getD i []).length = (h.hands.getD i []).length + cpp) ∧
        (∀ j, j ∉ is → h'.hands.getD j [] = h.hands.getD j []) := by
  intro is
  induction is with
  | nil =>
    intro h _ _ _
    exact ⟨h, rfl, by simp, rfl, rfl, rfl, fun i hi => absurd hi (List.not_mem_nil i),
      fun j _ => rfl⟩
  | cons i rest ih =>
    intro h hnd hbnd hlen
    have hib : i < h.hands.length := hbnd i (List.mem_cons_self i rest)
    have hmulsucc : cpp * (i :: rest).length = cpp * rest.length + cpp := by
      simp [Nat.mul_succ]
    have hcpplt : cpp < h.drawPile.length := by omega
    have hloop := drawCardsLoop_no_recycle h.shuffler cpp h.drawPile h.discardPile [] hcpplt
    have hgp : h.hands.get? i = some (h.hands.getD i []) := get?_getD_of_lt hib []
    have hdc : drawCards i cpp h = .ok { h with
        hands := h.hands.set i ((h.hands.getD i [])
          ++ (drawCardsLoop h.shuffler cpp h.drawPile h.discardPile []).1),
        drawPile := (drawCardsLoop h.shuffler cpp h.drawPile h.discardPile []).2.1,
        discardPile := (drawCardsLoop h.shuffler cpp h.drawPile h.discardPile []).2.2,
        unoCalls := h.unoCalls.set i false } := by
      unfold drawCards
      rw [hgp]
    simp only [hloop, List.nil_append] at hdc
    cases hdc2 : drawCards i cpp h with
    | error e => rw [hdc2] at hdc; exact absurd hdc (by simp)
    | ok h2 =>
      rw [hdc2] at hdc
      have h2eq : h2 = { h with
          hands := h.hands.set i ((h.hands.getD i []) ++ h.drawPile.take cpp),
          drawPile := h.drawPile.drop cpp,
          discardPile := h.discardPile,
          unoCalls := h.unoCalls.set i false } := Except.ok.inj hdc
      have h2pile : h2.drawPile = h.drawPile.drop cpp := by rw [h2eq]
      have h2disc : h2.discardPile = h.discardPile := by rw [h2eq]
      have h2len : h2.hands.length = h.hands.length := by rw [h2eq]; simp
      have h2pc : h2.playerCount = h.playerCount := by rw [h2eq]
      have h2self : (h2.hands.getD i []).length = (h.hands.getD i []).length + cpp := by
        rw [h2eq]
        show ((h.hands.set i ((h.hands.getD i []) ++ h.drawPile.take cpp)).getD i []).length = _
        rw [getD_set_self _ _ _ _ hib]
        simp only [List.length_append, List.length_take]
        omega
      have h2other : ∀ j, j ≠ i → h2.hands.getD j [] = h.hands.getD j [] := by
        intro j hj
        rw [h2eq]
        show (h.hands.set i _).getD j [] = _
        rw [getD_set_other _ _ _ _ _ (fun he => hj he.symm)]
      obtain ⟨hnotin, hndrest⟩ := List.nodup_cons.mp hnd
      have hbnd2 : ∀ j ∈ rest, j < h2.hands.length := by
        intro j hj
        rw [h2len]
        exact hbnd j (List.mem_cons_of_mem i hj)
      have hlen2 : cpp * rest.length < h2.drawPile.length := by
        rw [h2pile, List.length_drop]
        omega
      obtain ⟨h', hdl', hP1, hP2, hP3, hP4, hgain', hother'⟩ := ih h2 hndrest hbnd2 hlen2
      refine ⟨h', ?_, ?_, ?_, ?_, ?_, ?_, ?_⟩
      · simp only [dealLoop, hdc2]
        exact hdl'
      · rw [hP1, h2pile, List.drop_drop, hmulsucc, Nat.add_comm]
      · rw [hP2, h2disc]
      · rw [hP3, h2len]
      · rw [hP4, h2pc]
      · intro j hj
        rcases List.mem_cons.mp hj with rfl | hjr
        · rw [hother' j hnotin, h2self]
        · rw [hgain' j hjr, h2other j (fun he => hnotin (he ▸ hjr))]
      · intro j hjn
        have hji : j ≠ i := fun he => hjn (he ▸ List.mem_cons_self i rest)
        have hjr : j ∉ rest := fun hr => hjn (List.mem_cons_of_mem i hr)
        rw [hother' j hjr, h2other j hji]

theorem getNextPlayer_one (n p : Nat) (_hn : 0 < n) (hp : p < n) :
    getNextPlayer n 1 p false = (p + 1) % n := by
  show (if (n : Int) ≤ (p : Int) + 1 then (((p : Int) + 1) % (n : Int)).toNat
        else if (p : Int) + 1 < 0 then ((n : Int) + ((p : Int) + 1)).toNat
        else ((p : Int) + 1).toNat) = (p + 1) % n
  by_cases hcase : (n : Int) ≤ (p : Int) + 1
  · rw [if_pos hcase]
    have hpn : p + 1 = n := by omega
    rw [show ((p : Int) + 1) = ((n : Nat) : Int) by omega]
    rw [Int.emod_self]
    simp [hpn, Nat.mod_self]
  · rw [if_neg hcase]
    have hneg : ¬((p : Int) + 1 < 0) := by omega
    rw [if_neg hneg]
    have hlt : p + 1 < n := by omega
    rw [Nat.mod_eq_of_lt hlt]
    omega

/-- C7 (amended): for every successful `createHand` with a permutation
shuffler, an in-range dealer, and a deck large enough for the deal plus the
reveal (`players.length * cardsPerPlayer + 3 ≤ 108`), the revealed top
card's effect is resolved before any player acts: REVERSE sets `direction`
to `-1` and the first player to `dealer - 1` wrapped; SKIP keeps
`direction = 1` and sets the first player to `(dealer + 2) % n`; DRAW keeps
`direction = 1`, gives the player at `(dealer + 1) % n` two extra cards (so
that player holds `cardsPerPlayer + 2` cards) and sets the first player to
`(dealer + 2) % n`; any other card type keeps `direction = 1` and sets the
first player to `(dealer + 1) % n`. -/
theorem createHand_initial_effects (fuel : Nat) (players : List String) (dealer : Nat)
    (s : List Card → List Card) (cpp : Nat) (h : Hand)
    (hperm : PermShuffler s) (_hdealer : dealer < players.length)
    (hdeck : players.length * cpp + 3 ≤ 108)
    (hok : createHand fuel players dealer s cpp = .ok h) :
    ((topOfDiscard h).type = .reverse → h.direction = -1 ∧
      h.playerInTurn = some (if dealer = 0 then players.length - 1 else dealer - 1)) ∧
    ((topOfDiscard h).type = .skip → h.direction = 1 ∧
      h.playerInTurn = some ((dealer + 2) % players.length)) ∧
    ((topOfDiscard h).type = .draw → h.direction = 1 ∧
      h.playerInTurn = some ((dealer + 2) % players.length) ∧
      (h.hands.getD ((dealer + 1) % players.length) []).length = cpp + 2) ∧
    ((topOfDiscard h).type ≠ .reverse → (topOfDiscard h).type ≠ .skip →
      (topOfDiscard h).type ≠ .draw → h.direction = 1 ∧
      h.playerInTurn = some ((dealer + 1) % players.length)) := by
  obtain ⟨hn2, _hn10, hand1, topCard, remainingDeck, hdl, hrl, hbr⟩ := createHand_ok_elim hok
  have hnpos : 0 < players.length := by omega
  have hmul : cpp * players.length = players.length * cpp := Nat.mul_comm _ _
  have hpilelen : (initialHandState players dealer s).drawPile.length = 108 := by
    show (s createInitialDeck).length = 108
    rw [shuffle_length_of_perm hperm, createInitialDeck_length]
  have hbnd : ∀ i ∈ List.range players.length,
      i < (initialHandState players dealer s).hands.length := by
    intro i hi
    show i < (List.replicate players.length ([] : List Card)).length
    rw [List.length_replicate]
    exact List.mem_range.mp hi
  have hlena : cpp * (List.range players.length).length
      < (initialHandState players dealer s).drawPile.length := by
    rw [List.length_range, hpilelen]
    omega
  obtain ⟨h1', hdl', hpile1, hdisc1, hhlen1, hpc1, hgain1, _hother1⟩ :=
    dealLoop_exact cpp (List.range players.length) (initialHandState players dealer s)
      (List.nodup_range players.length) hbnd hlena
  have hEq : hand1 = h1' := Except.ok.inj (hdl.symm.trans hdl')
  subst hEq
  have hfacts := dealLoop_facts cpp (List.range players.length)
    (initialHandState players dealer s) hand1 hperm rfl hdl'
  have hshuf : hand1.shuffler = s := hfacts.2.1
  have hpc1' : hand1.playerCount = players.length := hpc1
  have hhlen1' : hand1.hands.length = players.length := by
    rw [hhlen1]
    show (List.replicate players.length ([] : List Card)).length = players.length
    rw [List.length_replicate]
  have hpilelen1 : hand1.drawPile.length = 108 - cpp * players.length := by
    rw [hpile1]
    simp only [List.length_drop, List.length_range]
    rw [hpilelen]
  have hperm2 : (topCard :: remainingDeck).Perm hand1.drawPile :=
    reshuffleLoop_perm hperm fuel hand1.drawPile _ hrl
  have hrem2 : 2 ≤ remainingDeck.length := by
    have hlen2 := hperm2.length_eq
    simp only [List.length_cons] at hlen2
    omega
  rcases hbr with ⟨hd, hand3, hdc, heq⟩ | ⟨hnd2, heq⟩
  · -- DRAW top card
    obtain ⟨ph, hgp, hand3eq⟩ := drawCards_ok_elim hdc
    simp only [afterReveal] at hgp hand3eq
    rw [hshuf] at hand3eq
    have hp0 : initialPlayer topCard dealer players.length
        = (dealer + 1) % players.length := by
      simp [initialPlayer, hd]
    have hp0lt : (dealer + 1) % players.length < players.length := Nat.mod_lt _ hnpos
    have hp0lt' : initialPlayer topCard dealer players.length < hand1.hands.length := by
      rw [hp0, hhlen1']
      exact hp0lt
    have hi0 : (initialHandState players dealer s).hands.getD
        (initialPlayer topCard dealer players.length) [] = [] := by
      show (List.replicate players.length ([] : List Card)).getD _ [] = []
      exact getD_replicate players.length _ [] [] (by rw [hp0]; exact hp0lt)
    have hlenp0 : (hand1.hands.getD (initialPlayer topCard dealer players.length) []).length
        = cpp := by
      rw [hgain1 _ (List.mem_range.mpr (by rw [hp0]; exact hp0lt)), hi0]
      simp
    have hphd : hand1.hands.getD (initialPlayer topCard dealer players.length) [] = ph := by
      rw [getD_eq_get?, hgp]
      rfl
    have hphlen : ph.length = cpp := by rw [← hphd]; exact hlenp0
    have hpc3 : hand3.playerCount = players.length := by
      rw [hand3eq]
      exact hpc1'
    have hdir3 : hand3.direction = 1 := by
      rw [hand3eq]
      show initialDirection topCard = 1
      simp [initialDirection, hd]
    have hd3disc : hand3.discardPile = [topCard] := by
      rw [hand3eq]
      exact drawCardsLoop_disc_singleton s topCard 2 remainingDeck []
    have hhdisc : h.discardPile = [topCard] := by
      rw [heq]
      exact hd3disc
    have htop : topOfDiscard h = topCard := by
      simp [topOfDiscard, hhdisc]
    refine ⟨?_, ?_, ?_, ?_⟩
    · intro ht
      rw [htop, hd] at ht
      exact absurd ht (by decide)
    · intro ht
      rw [htop, hd] at ht
      exact absurd ht (by decide)
    · intro _ht
      refine ⟨?_, ?_, ?_⟩
      · rw [heq]
        exact hdir3
      · rw [heq]
        show some (getNextPlayer hand3.playerCount hand3.direction
          (initialPlayer topCard dealer players.length) false)
          = some ((dealer + 2) % players.length)
        rw [hpc3, hdir3, hp0,
          getNextPlayer_one players.length ((dealer + 1) % players.length) hnpos hp0lt,
          Nat.mod_add_mod, show dealer + 1 + 1 = dealer + 2 by omega]
      · rw [heq]
        show (hand3.hands.getD ((dealer + 1) % players.length) []).length = cpp + 2
        rw [hand3eq]
        show ((hand1.hands.set (initialPlayer topCard dealer players.length)
            (ph ++ (drawCardsLoop s 2 remainingDeck [topCard] []).1)).getD
            ((dealer + 1) % players.length) []).length = cpp + 2
        rw [← hp0, getD_set_self _ _ _ _ hp0lt',
          drawCardsLoop_cards_exact s 2 remainingDeck [topCard] [] hrem2]
        simp only [List.nil_append, List.length_append, List.length_take]
        rw [hphlen]
        omega
    · intro _ _ ht3
      rw [htop] at ht3
      exact absurd hd ht3
  · -- non-DRAW top card
    subst heq
    have htop : topOfDiscard (afterReveal hand1 topCard remainingDeck dealer players.length)
        = topCard := rfl
    refine ⟨?_, ?_, ?_, ?_⟩
    · intro ht
      rw [htop] at ht
      constructor
      · show initialDirection topCard = -1
        simp [initialDirection, ht]
      · show some (initialPlayer topCard dealer players.length) = _
        simp [initialPlayer, ht]
    · intro ht
      rw [htop] at ht
      constructor
      · show initialDirection topCard = 1
        simp [initialDirection, ht]
      · show some (initialPlayer topCard dealer players.length) = _
        simp [initialPlayer, ht]
    · intro ht
      rw [htop] at ht
      exact absurd ht hnd2
    · intro ht1 ht2 _ht3
      rw [htop] at ht1 ht2
      constructor
      · show initialDirection topCard = 1
        simp [initialDirection, ht1]
      · show some (initialPlayer topCard dealer players.length) = _
        simp [initialPlayer, ht1, ht2]

/-- A non-permutation shuffler that replaces any non-empty deck by a fixed
two-card pile topped by a DRAW card. -/
def sigmaShuffler : List Card → List Card
  | [] => []
  | _ :: _ => [⟨.draw, some .red, none⟩, ⟨.numbered, some .red, some 5⟩]

/-- The hand created with `sigmaShuffler`, dealer 0 and 0 cards per player:
the revealed DRAW card finds only one card left to give. -/
def cexDrawEffect : Hand := (createHand 1 ["A", "B"] 0 sigmaShuffler 0).toOption.getD default

/-- A non-permutation shuffler that replaces any non-empty deck by a fixed
three-card pile topped by a REVERSE card. -/
def tauShuffler : List Card → List Card
  | [] => []
  | _ :: _ => [⟨.reverse, some .red, none⟩, ⟨.numbered, some .red, some 5⟩,
      ⟨.numbered, some .yellow, some 1⟩]

/-- The hand created with `tauShuffler` and the out-of-range dealer 5 for 2
players: `createHand` does not validate the dealer. -/
def cexReverseDealer : Hand := (createHand 1 ["A", "B"] 5 tauShuffler 0).toOption.getD default

/-- C7 counterexample to the claim as stated (quantifying over every
successful `createHand`): with a shuffler that shrinks the deck, the DRAW
top card leaves the player after the dealer with 1 card instead of
`cardsPerPlayer + 2 = 2`; and with an out-of-range dealer 5 for 2 players,
the REVERSE top card makes `playerInTurn` the non-existent player 4 instead
of `dealer - 1` wrapped, i.e. `(5 - 1) % 2 = 0`.  `createHand` succeeds in
both runs. -/
theorem createHand_initial_effects_cex :
    createHand 1 ["A", "B"] 0 sigmaShuffler 0 = .ok cexDrawEffect ∧
    (topOfDiscard cexDrawEffect).type = .draw ∧
    (cexDrawEffect.hands.getD ((0 + 1) % 2) []).length = 1 ∧
    (cexDrawEffect.hands.getD ((0 + 1) % 2) []).length ≠ 0 + 2 ∧
    createHand 1 ["A", "B"] 5 tauShuffler 0 = .ok cexReverseDealer ∧
    (topOfDiscard cexReverseDealer).type = .reverse ∧
    cexReverseDealer.playerInTurn = some 4 ∧
    cexReverseDealer.playerInTurn ≠ some ((5 - 1) % 2) :=
  ⟨rfl, rfl, rfl, by decide, rfl, rfl, rfl, by decide⟩

/-- C7 witness: the amended theorem applied to the concrete run `exHand`
(identity shuffler, 2 players, dealer 0, 7 cards per player), whose
revealed top card is a numbered card. -/
theorem createHand_initial_effects_witness :
    (topOfDiscard exHand).type ≠ .reverse ∧ (topOfDiscard exHand).type ≠ .skip ∧
    (topOfDiscard exHand).type ≠ .draw ∧
    exHand.direction = 1 ∧ exHand.playerInTurn = some ((0 + 1) % 2) :=
  ⟨by decide, by decide, by decide,
    ((createHand_initial_effects 1 ["A", "B"] 0 idShuffler 7 exHand idShuffler_perm
        (by decide) (by decide) exHand_spec).2.2.2 (by decide) (by decide) (by decide)).1,
    ((createHand_initial_effects 1 ["A", "B"] 0 idShuffler 7 exHand idShuffler_perm
        (by decide) (by decide) exHand_spec).2.2.2 (by decide) (by decide) (by decide)).2⟩
